import Mathlib

/-!
# sql2entity: the functions of `main.go`

A shallow embedding of `FormatName`, `MakeColumn`, `MakeTable` and `GenCode`
(and of the parts of the Go standard library they call), together with the
properties that the specification states about them.

Modelling conventions.

* A Go `string` is a sequence of bytes; it is embedded as `List UInt8`
  (`GoString`).  `str "..."` is the UTF-8 encoding of a literal.
* A run-time panic (index out of range) is the value `none` of `Option`;
  a function that returns normally yields `some` of its results.
* A Go `error` result is embedded as `Option GoString` (`none` is `nil`).
* `int` is the 64-bit Go `int`; it is embedded as `Int`, and the only place
  where the width matters (the range check of `%d` in `fmt.Sscanf`) tests
  the bounds explicitly.
* Writes to standard error are not part of the model.
-/

namespace Sql2Entity

set_option maxRecDepth 100000

/-- One byte of a Go string. -/
abbrev Byte := UInt8

/-- A Go string: a sequence of bytes. -/
abbrev GoString := List Byte

/-- The Go string denoted by a literal: its UTF-8 encoding. -/
def str (s : String) : GoString := s.toUTF8.data.toList

/-- A Go error value; `none` is `nil`. -/
abbrev error := Option GoString

/-! ## Package `unicode` -/

namespace unicode

/-- Width in bytes of the UTF-8 encoding of a white-space rune
(`unicode.IsSpace`: U+0009..U+000D, U+0020, U+0085, U+00A0, U+1680,
U+2000..U+200A, U+2028, U+2029, U+202F, U+205F, U+3000) at the head of `s`;
`0` when `s` does not start with one. -/
def spaceWidth : GoString → Nat
  | 0x09 :: _ => 1
  | 0x0A :: _ => 1
  | 0x0B :: _ => 1
  | 0x0C :: _ => 1
  | 0x0D :: _ => 1
  | 0x20 :: _ => 1
  | 0xC2 :: 0x85 :: _ => 2
  | 0xC2 :: 0xA0 :: _ => 2
  | 0xE1 :: 0x9A :: 0x80 :: _ => 3
  | 0xE2 :: 0x80 :: b :: _ =>
    if (0x80 ≤ b ∧ b ≤ 0x8A) ∨ b = 0xA8 ∨ b = 0xA9 ∨ b = 0xAF then 3 else 0
  | 0xE2 :: 0x81 :: 0x9F :: _ => 3
  | 0xE3 :: 0x80 :: 0x80 :: _ => 3
  | _ => 0

/-- Width in bytes of the white-space rune whose encoding ends the string
that `r` is the reversal of (`utf8.DecodeLastRuneInString` followed by
`unicode.IsSpace`); `0` when the last rune is not white space. -/
def spaceWidthRev : GoString → Nat
  | 0x09 :: _ => 1
  | 0x0A :: _ => 1
  | 0x0B :: _ => 1
  | 0x0C :: _ => 1
  | 0x0D :: _ => 1
  | 0x20 :: _ => 1
  | 0x85 :: 0xC2 :: _ => 2
  | 0xA0 :: 0xC2 :: _ => 2
  | 0x80 :: 0x9A :: 0xE1 :: _ => 3
  | 0x9F :: 0x81 :: 0xE2 :: _ => 3
  | 0x80 :: 0x80 :: 0xE3 :: _ => 3
  | b :: 0x80 :: 0xE2 :: _ =>
    if (0x80 ≤ b ∧ b ≤ 0x8A) ∨ b = 0xA8 ∨ b = 0xA9 ∨ b = 0xAF then 3 else 0
  | _ => 0

end unicode

/-! ## Package `strings` -/

namespace strings

/-- `strings.Index(s, substr)`: the position of the first occurrence of
`substr` in `s`; `none` stands for Go's `-1`. -/
def Index : GoString → GoString → Option Nat
  | [], substr => if substr.isEmpty then some 0 else none
  | c :: rest, substr =>
    if substr.isPrefixOf (c :: rest) then some 0
    else (Index rest substr).map (fun i => i + 1)

/-- `strings.Contains(s, substr)`, that is `Index(s, substr) >= 0`. -/
def Contains (s substr : GoString) : Bool := (Index s substr).isSome

/-- The loop of `strings.Split` (`genSplit`), bounded by `fuel` iterations. -/
def splitFuel : Nat → GoString → GoString → List GoString
  | 0, s, _ => [s]
  | fuel + 1, s, sep =>
    match Index s sep with
    | none => [s]
    | some i => s.take i :: splitFuel fuel (s.drop (i + sep.length)) sep

/-- `strings.Split(s, sep)` for a non-empty separator: the substrings between
the successive (leftmost, non-overlapping) occurrences of `sep`.  Every cut
removes at least one byte, so `s.length + 1` iterations are never exhausted. -/
def Split (s sep : GoString) : List GoString := splitFuel (s.length + 1) s sep

/-- Removes white-space runes from the front, at most `fuel` of them. -/
def trimLeftFuel : Nat → GoString → GoString
  | 0, s => s
  | fuel + 1, s =>
    if unicode.spaceWidth s = 0 then s
    else trimLeftFuel fuel (s.drop (unicode.spaceWidth s))

/-- Removes white-space runes from the back of the string whose reversal is
`r`, at most `fuel` of them; the result is reversed as well. -/
def trimRightFuel : Nat → GoString → GoString
  | 0, r => r
  | fuel + 1, r =>
    if unicode.spaceWidthRev r = 0 then r
    else trimRightFuel fuel (r.drop (unicode.spaceWidthRev r))

/-- `strings.TrimSpace(s)`: `s` without its leading and trailing white space,
as defined by Unicode. -/
def TrimSpace (s : GoString) : GoString :=
  let t := trimLeftFuel s.length s
  (trimRightFuel t.length t.reverse).reverse

end strings

/-! ## Package `fmt`: `Sscanf` with the format `"varchar(%d)"` -/

namespace fmt

/-- `ss.SkipSpace` as run by `Sscanf`, where a newline is not a space: skips
white space, returning the rest of the input; `none` is the error
"unexpected newline". -/
def SkipSpace : Nat → GoString → Option GoString
  | 0, s => some s
  | fuel + 1, s =>
    match s with
    | [] => some []
    | 0x0A :: _ => none
    | _ =>
      if unicode.spaceWidth s = 0 then some s
      else SkipSpace fuel (s.drop (unicode.spaceWidth s))

/-- The bytes `0`..`9`: the characters that `scanNumber` accepts for the verb
`%d` (`decimalDigits`, `"0123456789"`). -/
def isDigit (b : Byte) : Bool := 0x30 ≤ b && b ≤ 0x39

/-- Value of a string of decimal digits. -/
def decimalValue (ds : GoString) : Nat :=
  ds.foldl (fun acc b => 10 * acc + (b.toNat - 48)) 0

/-- `strconv.ParseInt(sign ++ ds, 10, 64)` for a token made of an optional
sign and a non-empty string `ds`: a syntax error when a byte of `ds` is not a
decimal digit, a range error outside the 64-bit range. -/
def ParseInt (neg : Bool) (ds : GoString) : Option Int :=
  if ds.all isDigit then
    if neg then
      if decimalValue ds ≤ 2 ^ 63 then some (-(decimalValue ds : Int)) else none
    else
      if decimalValue ds < 2 ^ 63 then some (decimalValue ds : Int) else none
  else none

/-- The verb `%d` on the input `s`: skip white space, accept one sign, scan
the longest run of decimal digits and convert it.  Returns the number and the
rest of the input. -/
def scanInt (s : GoString) : Option (Int × GoString) :=
  match SkipSpace s.length s with
  | none => none
  | some s1 =>
    let neg := s1.head? = some 0x2D
    let s2 := if s1.head? = some 0x2B ∨ s1.head? = some 0x2D then s1.drop 1 else s1
    let ds := s2.takeWhile isDigit
    if ds.isEmpty then none
    else
      match ParseInt neg ds with
      | none => none
      | some n => some (n, s2.dropWhile isDigit)

/-- `fmt.Sscanf(input, "varchar(%d)", &n)`.  The first component is the value
stored in `n` (`none` when the scan stops before anything is stored, so that
`n` keeps its old value); the second tells whether the returned `err` is
non-nil.  The number is stored as soon as `%d` has been scanned, so a missing
closing parenthesis is an error that leaves the number stored. -/
def SscanfVarchar (input : GoString) : Option Int × Bool :=
  match (str "varchar(").isPrefixOf? input with
  | none => (none, true)
  | some rest =>
    match scanInt rest with
    | none => (none, true)
    | some (n, rest1) => (some n, !(str ")").isPrefixOf rest1)

end fmt

/-! ## `main.go` -/

/-- Column: one column of the table.  The field `Type` of the source is
spelled `Type_`, `Type` being reserved. -/
structure Column where
  Name : GoString
  Type_ : GoString
  Nullable : Bool
  Length : Int
  IsPrimaryKey : Bool
  Comment : GoString
  deriving DecidableEq, Repr

/-- Table: the table name and its columns. -/
structure Table where
  TableName : GoString
  Columns : List Column
  deriving DecidableEq, Repr

/-- The zero value of `Column`. -/
def Column.zero : Column :=
  { Name := [], Type_ := [], Nullable := false, Length := 0, IsPrimaryKey := false, Comment := [] }

/-- The type cascade of `MakeColumn`: five independent `if` statements on the
second token `v1`, run in source order on the column `c`. -/
def setType (v1 : GoString) (c : Column) : Column :=
  let c := if strings.Contains v1 (str "int") then { c with Type_ := str "int" } else c
  let c :=
    if strings.Contains v1 (str "varchar") then
      let c := { c with Type_ := str "string" }
      if strings.Contains v1 (str "(") then
        match (fmt.SscanfVarchar v1).1 with
        | some n => { c with Length := n }
        | none => c
      else c
    else c
  let c :=
    if strings.Contains v1 (str "date") then
      if c.Nullable then { c with Type_ := str "DateTime?" } else { c with Type_ := str "DateTime" }
    else c
  let c := if strings.Contains v1 (str "decimal") then { c with Type_ := str "decimal" } else c
  let c := if strings.Contains v1 (str "double") then { c with Type_ := str "double" } else c
  c

/-- MakeColumn: reads one column definition line.  `none` is the panic of an
index out of range. -/
def MakeColumn (columns : GoString) : Option (Column × Bool) :=
  let values := strings.Split (strings.TrimSpace columns) (str " ")
  match values[0]? with
  | none => none
  | some v0 =>
    if !strings.Contains v0 (str "`") then some (Column.zero, false)
    else
      match (strings.Split v0 (str "`"))[1]? with
      | none => none
      | some name =>
        let c := { Column.zero with Name := name }
        let c :=
          if strings.Contains columns (str "NOT NULL") then { c with Nullable := false }
          else { c with Nullable := true }
        match values[1]? with
        | none => none
        | some v1 =>
          let c := setType v1 c
          let c :=
            if strings.Contains columns (str "'") then
              match (strings.Split columns (str "'"))[1]? with
              | none => none
              | some comment => some { c with Comment := comment }
            else some c
          match c with
          | none => none
          | some c => some (c, true)

/-- The primary-key pass run for the line `c`: every column collected so far
whose name occurs in the line is flagged. -/
def markPrimaryKey (c : GoString) (cols : List Column) : List Column :=
  cols.map (fun tc => if strings.Contains c tc.Name then { tc with IsPrimaryKey := true } else tc)

/-- One iteration of the loop of `MakeTable` over the line `c`. -/
def tableStep (table : Table) (c : GoString) : Option Table :=
  match MakeColumn c with
  | none => none
  | some (temp, ok) =>
    let table := if ok then { table with Columns := table.Columns ++ [temp] } else table
    if strings.Contains c (str "PRIMARY KEY") then
      some { table with Columns := markPrimaryKey c table.Columns }
    else some table

/-- The loop of `MakeTable` over the lines `columns`. -/
def tableLoop : List GoString → Table → Option Table
  | [], table => some table
  | c :: rest, table =>
    match tableStep table c with
    | none => none
    | some table1 => tableLoop rest table1

/-- MakeTable: builds the table from the bytes of the input file.  `none` is
the panic of an index out of range; the `err` result is never assigned. -/
def MakeTable (b : GoString) : Option (Table × error) :=
  match (strings.Split b (str "CREATE TABLE "))[1]? with
  | none => none
  | some s =>
    match (strings.Split s (str "`"))[1]? with
    | none => none
    | some name =>
      match strings.Split s (str "\n") with
      | [] => none
      | _ :: columns =>
        match tableLoop columns { TableName := name, Columns := [] } with
        | none => none
        | some table => some (table, none)

namespace strings

/-- `strings.ToUpper` on the one-byte string `[b]`: an ASCII lower-case letter
becomes the upper-case letter, any other ASCII byte is kept, and a byte from
`0x80` on, which is not valid UTF-8 on its own, is replaced by the encoding of
U+FFFD (the behaviour of `strings.Map` in current Go releases). -/
def ToUpperByte (b : Byte) : GoString :=
  if 0x61 ≤ b ∧ b ≤ 0x7A then [b - 0x20]
  else if b < 0x80 then [b]
  else [0xEF, 0xBF, 0xBD]

end strings

/-- The loop of `FormatName` over the segments: `v[0:1]` is out of range for an
empty segment. -/
def formatLoop : List GoString → GoString → Option GoString
  | [], result => some result
  | [] :: _, _ => none
  | (b :: v) :: rest, result => formatLoop rest (result ++ (strings.ToUpperByte b ++ v))

/-- FormatName: drops the underscores and upper-cases the first byte of every
segment.  `none` is the panic of a slice bound out of range. -/
def FormatName (s : GoString) : Option GoString :=
  formatLoop (strings.Split s (str "_")) []

/-- `fmt.Sprintf("%d", n)`. -/
def formatInt (n : Int) : GoString := str (toString n)

/-- The text that `GenCode` emits for the column `c`, the separating newline
excluded. -/
def genColumn (c : Column) : Option GoString :=
  let result := str "/// <summary>\n/// " ++ c.Comment ++ str "\n/// </summary>\n"
  let result := if c.IsPrimaryKey then result ++ str "[Key]\n" else result
  let result := if !c.Nullable then result ++ str "[Required]\n" else result
  let result := result ++ (str "[Column(\"" ++ c.Name ++ str "\")]\n")
  let result :=
    if c.Type_ = str "string" then
      result ++ (str "[StringLength(" ++ formatInt c.Length ++ str ")]\n")
    else result
  match FormatName c.Name with
  | none => none
  | some name =>
    some (result ++ (str "public " ++ c.Type_ ++ str " " ++ name ++ str " \x7b get; set; \x7d\n"))

/-- The loop of `GenCode` over the columns; `i` is the index of the first one. -/
def genLoop : List Column → Nat → GoString → Option GoString
  | [], _, result => some result
  | c :: rest, i, result =>
    let result := if i ≠ 0 then result ++ str "\n" else result
    match genColumn c with
    | none => none
    | some text => genLoop rest (i + 1) (result ++ text)

/-- GenCode: the class text for the table.  `none` is a panic inside
`FormatName`; the `err` result is never assigned. -/
def GenCode (table : Table) (entityName : GoString) : Option (GoString × error) :=
  let result := str "/// <summary>\n/// " ++ str "" ++ str "\n/// </summary>\n"
  let result := result ++ (str "[Table(\"" ++ table.TableName ++ str "\")]\n")
  let result := result ++ (str "public class " ++ entityName ++ str " : IEntity\n")
  let result := result ++ str "\x7b\n"
  match genLoop table.Columns 0 result with
  | none => none
  | some result => some (result ++ str "\x7d\n", none)

/-! ## Reference definitions used to state the properties of the loop -/

/-- The column of a line that `MakeColumn` accepts (`ok = true`), `none` for a
line that is rejected or on which `MakeColumn` fails. -/
def acceptedColumn (line : GoString) : Option Column :=
  match MakeColumn line with
  | some (c, true) => some c
  | _ => none

/-- The columns of the accepted lines, one per accepted line, in the order of
the lines. -/
def acceptedColumns (lines : List GoString) : List Column :=
  lines.filterMap acceptedColumn

/-- The column `c` flagged as primary key when one of `lines` contains both
`PRIMARY KEY` and the name of `c`. -/
def markedBy (lines : List GoString) (c : Column) : Column :=
  if lines.any (fun l => strings.Contains l (str "PRIMARY KEY") && strings.Contains l c.Name)
  then { c with IsPrimaryKey := true } else c

/-- The columns expected from the lines: every accepted line gives its column,
flagged by the lines from its own line on. -/
def expectedColumns : List GoString → List Column
  | [] => []
  | l :: rest =>
    match acceptedColumn l with
    | some c => markedBy (l :: rest) c :: expectedColumns rest
    | none => expectedColumns rest

/-- A segment with its first byte passed through `strings.ToUpper`, the rest
unchanged: what `FormatName` appends for the non-empty segment `v`. -/
def capitalize : GoString → GoString
  | [] => []
  | b :: v => strings.ToUpperByte b ++ v

/-- The header that `GenCode` emits before the columns: the empty summary, the
table annotation, the class line and the opening brace. -/
def classHeader (tableName entityName : GoString) : GoString :=
  str "/// <summary>\n/// \n/// </summary>\n" ++
    (str "[Table(\"" ++ tableName ++ str "\")]\n") ++
    (str "public class " ++ entityName ++ str " : IEntity\n\x7b\n")

/-- The block of one column as the specification words it: the summary with
the comment, `[Key]` for a primary key, `[Required]` for a column that is not
nullable, the column annotation, the length annotation for the type `string`,
and the property whose name is `property`. -/
def columnBlock (c : Column) (property : GoString) : GoString :=
  str "/// <summary>\n/// " ++ c.Comment ++ str "\n/// </summary>\n" ++
    (if c.IsPrimaryKey = true then str "[Key]\n" else []) ++
    (if c.Nullable = false then str "[Required]\n" else []) ++
    (str "[Column(\"" ++ c.Name ++ str "\")]\n") ++
    (if c.Type_ = str "string" then str "[StringLength(" ++ formatInt c.Length ++ str ")]\n"
      else []) ++
    (str "public " ++ c.Type_ ++ str " " ++ property ++ str " \x7b get; set; \x7d\n")

/-! ## Lemmas on the string functions -/

namespace strings

theorem Index_eq_none_iff (s sub : GoString) : Index s sub = none ↔ ¬ sub <:+: s := by
  induction s with
  | nil =>
    cases sub with
    | nil => simp [Index]
    | cons a t => simp [Index]
  | cons c rest ih =>
    unfold Index
    by_cases hp : sub.isPrefixOf (c :: rest) = true
    · rw [if_pos hp]
      have hp2 : sub <+: c :: rest := List.isPrefixOf_iff_prefix.mp hp
      simp [hp2.isInfix]
    · rw [if_neg hp]
      have hp2 : ¬ sub <+: c :: rest := fun h => hp (List.isPrefixOf_iff_prefix.mpr h)
      rw [Option.map_eq_none', ih, List.infix_cons_iff]
      tauto

theorem Contains_iff (s sub : GoString) : Contains s sub = true ↔ sub <:+: s := by
  unfold Contains
  rw [Option.isSome_iff_ne_none, Ne, Index_eq_none_iff, not_not]

theorem Contains_eq_false_iff (s sub : GoString) : Contains s sub = false ↔ ¬ sub <:+: s := by
  rw [← Contains_iff, Bool.not_eq_true]

theorem Contains_singleton (s : GoString) (c : Byte) : Contains s [c] = true ↔ c ∈ s := by
  rw [Contains_iff]
  constructor
  · intro h
    exact h.subset (List.mem_singleton_self c)
  · intro h
    obtain ⟨p, q, hpq⟩ := List.append_of_mem h
    exact ⟨p, q, by simp [hpq]⟩

/-- Characterisation of `Index`: the result is the least offset at which `sub` starts. -/
theorem Index_eq_some_iff (s sub : GoString) (i : Nat) :
    Index s sub = some i ↔
      i ≤ s.length ∧ sub <+: s.drop i ∧ ∀ j, j < i → ¬ sub <+: s.drop j := by
  induction s generalizing i with
  | nil =>
    cases sub with
    | nil =>
      simp [Index]
      constructor
      · intro h; subst h; simp
      · intro h; exact h.1.symm
    | cons a t => simp [Index]
  | cons c rest ih =>
    unfold Index
    by_cases hp : sub.isPrefixOf (c :: rest) = true
    · rw [if_pos hp]
      have hp2 : sub <+: c :: rest := List.isPrefixOf_iff_prefix.mp hp
      constructor
      · intro h
        have : i = 0 := by simpa using h.symm
        subst this
        simp [hp2]
      · rintro ⟨_, _, h3⟩
        cases i with
        | zero => rfl
        | succ k => exact absurd hp2 (by simpa using h3 0 (Nat.succ_pos k))
    · rw [if_neg hp]
      have hp2 : ¬ sub <+: c :: rest := fun h => hp (List.isPrefixOf_iff_prefix.mpr h)
      cases i with
      | zero =>
        simp [hp2]
      | succ k =>
        rw [Option.map_eq_some']
        constructor
        · rintro ⟨a, ha, hk⟩
          have hak : a = k := by omega
          subst hak
          obtain ⟨h1, h2, h3⟩ := (ih a).mp ha
          refine ⟨by simpa using h1, by simpa using h2, ?_⟩
          intro j hj
          cases j with
          | zero => simpa using hp2
          | succ j => simpa using h3 j (by omega)
        · rintro ⟨h1, h2, h3⟩
          refine ⟨k, (ih k).mpr ⟨by simpa using h1, by simpa using h2, ?_⟩, rfl⟩
          intro j hj
          simpa using h3 (j + 1) (by omega)

/-- A found occurrence splits the string around it, and `sub` does not occur
in the part before. -/
theorem Index_eq_some_decomp {s sub : GoString} {i : Nat} (h : Index s sub = some i) :
    s = s.take i ++ sub ++ s.drop (i + sub.length) ∧ (s.take i).length = i ∧
      (sub ≠ [] → ¬ sub <:+: s.take i) := by
  obtain ⟨h1, ⟨t, ht⟩, h3⟩ := (Index_eq_some_iff s sub i).mp h
  refine ⟨?_, by simp [h1], ?_⟩
  · have hd : s.drop (i + sub.length) = t := by
      rw [← List.drop_drop, ← ht]
      simp
    rw [hd, List.append_assoc, ht, List.take_append_drop]
  · intro hne hin
    obtain ⟨p, q, hpq⟩ := hin
    have hlen : p.length + sub.length + q.length = i := by
      have := congrArg List.length hpq
      simp [h1] at this
      omega
    have hsl : 0 < sub.length := List.length_pos.mpr hne
    apply h3 p.length (by omega)
    have hs : s = p ++ (sub ++ (q ++ s.drop i)) := by
      conv_lhs => rw [← List.take_append_drop i s, ← hpq]
      simp
    rw [hs, List.drop_left]
    exact List.prefix_append _ _

theorem splitFuel_of_absent (n : Nat) (s sep : GoString) (h : ¬ sep <:+: s) :
    splitFuel n s sep = [s] := by
  cases n with
  | zero => rfl
  | succ n => simp [splitFuel, (Index_eq_none_iff s sep).mpr h]

theorem Split_of_absent (s sep : GoString) (h : ¬ sep <:+: s) : Split s sep = [s] :=
  splitFuel_of_absent _ s sep h

/-- Enough fuel is as good as any larger amount. -/
theorem splitFuel_stable (sep : GoString) (hsep : sep ≠ []) :
    ∀ (n m : Nat) (s : GoString), s.length ≤ n → s.length ≤ m →
      splitFuel n s sep = splitFuel m s sep := by
  intro n
  induction n with
  | zero =>
    intro m s hn _
    have hs : s = [] := List.length_eq_zero.mp (Nat.le_zero.mp hn)
    subst hs
    have : ¬ sep <:+: [] := by simpa using hsep
    rw [splitFuel_of_absent 0 [] sep this, splitFuel_of_absent m [] sep this]
  | succ n ih =>
    intro m s hn hm
    cases m with
    | zero =>
      have hs : s = [] := List.length_eq_zero.mp (Nat.le_zero.mp hm)
      subst hs
      have : ¬ sep <:+: [] := by simpa using hsep
      rw [splitFuel_of_absent _ [] sep this, splitFuel_of_absent 0 [] sep this]
    | succ m =>
      simp only [splitFuel]
      cases hI : Index s sep with
      | none => rfl
      | some i =>
        simp only
        have hsl : 0 < sep.length := List.length_pos.mpr hsep
        have h1 := ((Index_eq_some_iff s sep i).mp hI).1
        rw [ih m (s.drop (i + sep.length)) (by simp; omega) (by simp; omega)]

/-- Unfolding of `Split` at the first occurrence of the separator. -/
theorem Split_of_Index {s sep : GoString} {i : Nat} (hsep : sep ≠ [])
    (h : Index s sep = some i) :
    Split s sep = s.take i :: Split (s.drop (i + sep.length)) sep := by
  show splitFuel (s.length + 1) s sep = _
  rw [splitFuel, h]
  show _ :: _ = _ :: splitFuel _ _ sep
  congr 1
  apply splitFuel_stable sep hsep
  · simp
  · simp

end strings

namespace strings

theorem Split_cons_exists (s sep : GoString) : ∃ h t, Split s sep = h :: t := by
  show ∃ h t, splitFuel (s.length + 1) s sep = h :: t
  rw [splitFuel]
  cases Index s sep with
  | none => exact ⟨_, _, rfl⟩
  | some i => exact ⟨_, _, rfl⟩

/-- The second segment exists exactly when the separator occurs. -/
theorem Split_get_one_isSome (s sep : GoString) (hsep : sep ≠ []) :
    (∃ x, (Split s sep)[1]? = some x) ↔ sep <:+: s := by
  constructor
  · rintro ⟨x, hx⟩
    by_contra hn
    rw [Split_of_absent s sep hn] at hx
    simp at hx
  · intro h
    cases hI : Index s sep with
    | none => exact absurd h ((Index_eq_none_iff s sep).mp hI)
    | some i =>
      rw [Split_of_Index hsep hI]
      obtain ⟨a, t, hat⟩ := Split_cons_exists (s.drop (i + sep.length)) sep
      exact ⟨a, by simp [hat]⟩

theorem Index_singleton_append (a rest : GoString) (c : Byte) (h : c ∉ a) :
    Index (a ++ c :: rest) [c] = some a.length := by
  rw [Index_eq_some_iff]
  refine ⟨by simp, by simp, ?_⟩
  intro j hj hp
  have hd : (a ++ c :: rest).drop j = a.drop j ++ c :: rest := by
    rw [List.drop_append_of_le_length (Nat.le_of_lt hj)]
  rw [hd] at hp
  cases hda : a.drop j with
  | nil =>
    have := congrArg List.length hda
    simp at this
    omega
  | cons x t =>
    rw [hda] at hp
    have hx : x ∈ a := List.mem_of_mem_drop (by rw [hda]; exact List.mem_cons_self x t)
    have : c = x := by
      obtain ⟨u, hu⟩ := hp
      simp at hu
      exact hu.1
    exact h (this ▸ hx)

/-- Splitting on a single byte: the first segment ends at the first occurrence. -/
theorem Split_singleton_append (a rest : GoString) (c : Byte) (h : c ∉ a) :
    Split (a ++ c :: rest) [c] = a :: Split rest [c] := by
  rw [Split_of_Index (by simp) (Index_singleton_append a rest c h)]
  simp

theorem Split_singleton_of_not_mem (s : GoString) (c : Byte) (h : c ∉ s) :
    Split s [c] = [s] :=
  Split_of_absent s [c] (fun hin => h ((Contains_singleton s c).mp ((Contains_iff s [c]).mpr hin)))

end strings

theorem str_backtick : str "`" = [0x60] := by decide
theorem str_space : str " " = [0x20] := by decide
theorem str_quote : str "'" = [0x27] := by decide
theorem str_newline : str "\n" = [0x0A] := by decide
theorem str_paren : str "(" = [0x28] := by decide

/-- The cascade in closed form: the last matching keyword decides the type,
and the length is whatever `Sscanf` stored. -/
theorem setType_eq (v1 : GoString) (c : Column) :
    setType v1 c =
      { c with
        Type_ :=
          if strings.Contains v1 (str "double") then str "double"
          else if strings.Contains v1 (str "decimal") then str "decimal"
          else if strings.Contains v1 (str "date") then
            (if c.Nullable then str "DateTime?" else str "DateTime")
          else if strings.Contains v1 (str "varchar") then str "string"
          else if strings.Contains v1 (str "int") then str "int"
          else c.Type_
        Length :=
          if strings.Contains v1 (str "varchar") ∧ strings.Contains v1 (str "(") then
            ((fmt.SscanfVarchar v1).1).getD c.Length
          else c.Length } := by
  unfold setType
  generalize strings.Contains v1 (str "double") = b1
  generalize strings.Contains v1 (str "decimal") = b2
  generalize strings.Contains v1 (str "date") = b3
  generalize strings.Contains v1 (str "varchar") = b4
  generalize strings.Contains v1 (str "int") = b5
  generalize strings.Contains v1 (str "(") = b6
  generalize (fmt.SscanfVarchar v1).1 = o
  generalize str "double" = s1
  generalize str "decimal" = s2
  generalize str "DateTime?" = s3
  generalize str "DateTime" = s4
  generalize str "string" = s5
  generalize str "int" = s6
  obtain ⟨n, t, nl, len, pk, cm⟩ := c
  cases b1 <;> cases b2 <;> cases b3 <;> cases b4 <;> cases b5 <;> cases b6 <;> cases o <;>
    cases nl <;> simp

theorem setType_Name (v1 : GoString) (c : Column) : (setType v1 c).Name = c.Name := by
  rw [setType_eq]

theorem setType_Nullable (v1 : GoString) (c : Column) :
    (setType v1 c).Nullable = c.Nullable := by
  rw [setType_eq]

theorem setType_Comment (v1 : GoString) (c : Column) : (setType v1 c).Comment = c.Comment := by
  rw [setType_eq]

theorem setType_IsPrimaryKey (v1 : GoString) (c : Column) :
    (setType v1 c).IsPrimaryKey = c.IsPrimaryKey := by
  rw [setType_eq]

theorem Column.with_Comment_eq (c : Column) (z : GoString) (h : c.Comment = z) :
    c = { c with Comment := z } := by
  subst h
  rfl

/-- What an accepted line is made of. -/
theorem MakeColumn_accept {line : GoString} {c : Column} (h : MakeColumn line = some (c, true)) :
    ∃ v0 v1 rest name,
      strings.Split (strings.TrimSpace line) (str " ") = v0 :: v1 :: rest ∧
      strings.Contains v0 (str "`") = true ∧
      (strings.Split v0 (str "`"))[1]? = some name ∧
      c = { setType v1 { Column.zero with
                Name := name, Nullable := !strings.Contains line (str "NOT NULL") } with
            Comment := if strings.Contains line (str "'") then
                ((strings.Split line (str "'"))[1]?).getD [] else [] } := by
  unfold MakeColumn at h
  obtain ⟨v0, rest, hv⟩ := strings.Split_cons_exists (strings.TrimSpace line) (str " ")
  rw [hv] at h
  simp only [List.getElem?_cons_zero] at h
  by_cases hbt : strings.Contains v0 (str "`") = true
  · simp only [hbt, Bool.not_true, Bool.false_eq_true, if_false] at h
    cases hname : (strings.Split v0 (str "`"))[1]? with
    | none => simp [hname] at h
    | some name =>
      simp only [hname] at h
      cases rest with
      | nil => simp at h
      | cons v1 rest =>
        simp only [List.getElem?_cons_succ, List.getElem?_cons_zero] at h
        refine ⟨v0, v1, rest, name, hv, hbt, hname, ?_⟩
        by_cases hnn : strings.Contains line (str "NOT NULL") = true
        · by_cases hq : strings.Contains line (str "'") = true
          · simp only [hnn, hq, if_true] at h
            cases hcm : (strings.Split line (str "'"))[1]? with
            | none => simp [hcm] at h
            | some cm =>
              simp only [hcm, Option.some.injEq, Prod.mk.injEq, and_true] at h
              simp [← h, hnn, hq, Column.zero]
          · simp only [hnn, hq, if_true] at h
            simp only [Bool.false_eq_true, if_false, Option.some.injEq, Prod.mk.injEq, and_true] at h
            rw [← h]
            simp only [hnn, hq, Bool.false_eq_true, if_false, Bool.not_true, Bool.not_false]
            exact Column.with_Comment_eq _ _ (by rw [setType_Comment]; rfl)
        · by_cases hq : strings.Contains line (str "'") = true
          · simp only [hnn, hq, if_true] at h
            cases hcm : (strings.Split line (str "'"))[1]? with
            | none => simp [hcm] at h
            | some cm =>
              simp only [hcm, Bool.false_eq_true, if_false, Option.some.injEq, Prod.mk.injEq, and_true] at h
              simp [← h, hnn, hq, Column.zero]
          · simp only [hnn, hq] at h
            simp only [Bool.false_eq_true, if_false, Option.some.injEq, Prod.mk.injEq, and_true] at h
            rw [← h]
            simp only [hnn, hq, Bool.false_eq_true, if_false, Bool.not_true, Bool.not_false]
            exact Column.with_Comment_eq _ _ (by rw [setType_Comment]; rfl)
  · simp only [hbt, Bool.not_false, if_true] at h
    simp at h

theorem str_ne_nil_backtick : str "`" ≠ [] := by decide
theorem str_ne_nil_quote : str "'" ≠ [] := by decide

/-- A line with a back-quoted first token and a second token is accepted. -/
theorem MakeColumn_of_tokens {line v0 v1 : GoString} {rest : List GoString}
    (hv : strings.Split (strings.TrimSpace line) (str " ") = v0 :: v1 :: rest)
    (hbt : strings.Contains v0 (str "`") = true) :
    ∃ name, (strings.Split v0 (str "`"))[1]? = some name ∧
      MakeColumn line = some
        ({ setType v1 { Column.zero with
                Name := name, Nullable := !strings.Contains line (str "NOT NULL") } with
            Comment := if strings.Contains line (str "'") then
                ((strings.Split line (str "'"))[1]?).getD [] else [] }, true) := by
  obtain ⟨name, hname⟩ := (strings.Split_get_one_isSome v0 (str "`") str_ne_nil_backtick).mpr
    ((strings.Contains_iff _ _).mp hbt)
  refine ⟨name, hname, ?_⟩
  unfold MakeColumn
  simp only [hv, List.getElem?_cons_zero, hbt, Bool.not_true, Bool.false_eq_true, if_false, hname,
    List.getElem?_cons_succ]
  by_cases hq : strings.Contains line (str "'") = true
  · obtain ⟨cm, hcm⟩ := (strings.Split_get_one_isSome line (str "'") str_ne_nil_quote).mpr
      ((strings.Contains_iff _ _).mp hq)
    by_cases hnn : strings.Contains line (str "NOT NULL") = true
    · simp [hq, hcm, hnn]
    · simp [hq, hcm, hnn]
  · by_cases hnn : strings.Contains line (str "NOT NULL") = true
    · simp only [hq, hnn, if_true, Bool.false_eq_true, if_false, Bool.not_true]
      exact congrArg (fun z => some (z, true)) (Column.with_Comment_eq _ _ (by rw [setType_Comment]; rfl))
    · simp only [hq, hnn, if_true, Bool.false_eq_true, if_false, Bool.not_false]
      exact congrArg (fun z => some (z, true)) (Column.with_Comment_eq _ _ (by rw [setType_Comment]; rfl))

/-- A line whose first token has no backtick is rejected. -/
theorem MakeColumn_of_no_backtick {line v0 : GoString} {rest : List GoString}
    (hv : strings.Split (strings.TrimSpace line) (str " ") = v0 :: rest)
    (hbt : strings.Contains v0 (str "`") = false) :
    MakeColumn line = some (Column.zero, false) := by
  unfold MakeColumn
  simp [hv, hbt]

theorem exists_first_occurrence {c : Byte} {l : GoString} (h : c ∈ l) :
    ∃ a rest, l = a ++ c :: rest ∧ c ∉ a := by
  induction l with
  | nil => simp at h
  | cons x t ih =>
    by_cases hx : c = x
    · exact ⟨[], t, by simp [hx], by simp⟩
    · have ht : c ∈ t := by
        rcases List.mem_cons.mp h with h1 | h1
        · exact absurd h1 hx
        · exact h1
      obtain ⟨a, rest, hl, ha⟩ := ih ht
      refine ⟨x :: a, rest, by simp [hl], ?_⟩
      simp [hx, ha]

theorem isPrefixOf?_append (p r : GoString) : p.isPrefixOf? (p ++ r) = some r := by
  induction p with
  | nil => simp [List.isPrefixOf?]
  | cons x t ih => simp [List.isPrefixOf?, ih]

namespace fmt

theorem isDigit_cases (d : Byte) (hd : isDigit d = true) :
    d = 0x30 ∨ d = 0x31 ∨ d = 0x32 ∨ d = 0x33 ∨ d = 0x34 ∨ d = 0x35 ∨ d = 0x36 ∨ d = 0x37 ∨
      d = 0x38 ∨ d = 0x39 := by
  simp only [isDigit, Bool.and_eq_true, decide_eq_true_eq] at hd
  obtain ⟨h1, h2⟩ := hd
  have h1' : 48 ≤ d.toNat := h1
  have h2' : d.toNat ≤ 57 := h2
  have key : ∀ b : UInt8, d.toNat = b.toNat → d = b := fun b h => UInt8.toNat.inj h
  have : d.toNat = 48 ∨ d.toNat = 49 ∨ d.toNat = 50 ∨ d.toNat = 51 ∨ d.toNat = 52 ∨ d.toNat = 53 ∨
      d.toNat = 54 ∨ d.toNat = 55 ∨ d.toNat = 56 ∨ d.toNat = 57 := by omega
  rcases this with h | h | h | h | h | h | h | h | h | h
  · exact Or.inl (key 0x30 h)
  · exact Or.inr (Or.inl (key 0x31 h))
  · exact Or.inr (Or.inr (Or.inl (key 0x32 h)))
  · exact Or.inr (Or.inr (Or.inr (Or.inl (key 0x33 h))))
  · exact Or.inr (Or.inr (Or.inr (Or.inr (Or.inl (key 0x34 h)))))
  · exact Or.inr (Or.inr (Or.inr (Or.inr (Or.inr (Or.inl (key 0x35 h))))))
  · exact Or.inr (Or.inr (Or.inr (Or.inr (Or.inr (Or.inr (Or.inl (key 0x36 h)))))))
  · exact Or.inr (Or.inr (Or.inr (Or.inr (Or.inr (Or.inr (Or.inr (Or.inl (key 0x37 h))))))))
  · exact Or.inr (Or.inr (Or.inr (Or.inr (Or.inr (Or.inr (Or.inr (Or.inr (Or.inl (key 0x38 h)))))))))
  · exact Or.inr (Or.inr (Or.inr (Or.inr (Or.inr (Or.inr (Or.inr (Or.inr (Or.inr (key 0x39 h)))))))))

theorem spaceWidth_digit (d : Byte) (t : GoString) (hd : isDigit d = true) :
    unicode.spaceWidth (d :: t) = 0 := by
  rcases isDigit_cases d hd with h | h | h | h | h | h | h | h | h | h <;> subst h <;> rfl

theorem SkipSpace_digit (n : Nat) (d : Byte) (t : GoString) (hd : isDigit d = true) :
    SkipSpace n (d :: t) = some (d :: t) := by
  cases n with
  | zero => rfl
  | succ n =>
    have h2 : d ≠ 0x0A := by rintro rfl; revert hd; decide
    unfold SkipSpace
    split
    · rename_i h; simp at h
    · rename_i h; simp at h; exact absurd h.1 h2
    · rw [if_pos (spaceWidth_digit d t hd)]

theorem scanInt_digits (ds rest : GoString) (hne : ds ≠ []) (hds : ∀ d ∈ ds, isDigit d = true)
    (hrest : ∀ x, rest.head? = some x → isDigit x = false) :
    scanInt (ds ++ rest) =
      if decimalValue ds < 2 ^ 63 then some ((decimalValue ds : Int), rest) else none := by
  obtain ⟨d, t, rfl⟩ := List.exists_cons_of_ne_nil hne
  have hd : isDigit d = true := hds d (List.mem_cons_self d t)
  have hplus : d ≠ 0x2B := by rintro rfl; revert hd; decide
  have hminus : d ≠ 0x2D := by rintro rfl; revert hd; decide
  have hall : ∀ a ∈ d :: t, isDigit a = true := hds
  have htw : ((d :: t) ++ rest).takeWhile isDigit = d :: t := by
    rw [List.takeWhile_append_of_pos hall]
    cases rest with
    | nil => simp
    | cons x r => simp [List.takeWhile, hrest x rfl]
  have hdw : ((d :: t) ++ rest).dropWhile isDigit = rest := by
    rw [List.dropWhile_append_of_pos hall]
    cases rest with
    | nil => simp
    | cons x r => simp [List.dropWhile, hrest x rfl]
  have hall2 : (d :: t).all isDigit = true := by
    rw [List.all_eq_true]; exact hds
  unfold scanInt
  have hss : SkipSpace ((d :: t) ++ rest).length ((d :: t) ++ rest) = some ((d :: t) ++ rest) :=
    SkipSpace_digit _ d (t ++ rest) hd
  rw [hss]
  have hh : ((d :: t) ++ rest).head? = some d := rfl
  simp only [hh, Option.some.injEq, hplus, hminus, or_self, if_false, htw, hdw, decide_False,
    List.isEmpty_cons, Bool.false_eq_true, ParseInt, hall2, if_true]
  by_cases hlt : decimalValue (d :: t) < 2 ^ 63
  · rw [if_pos hlt, if_pos hlt]
  · rw [if_neg hlt, if_neg hlt]

theorem SscanfVarchar_exact (ds : GoString) (hne : ds ≠ []) (hds : ∀ d ∈ ds, isDigit d = true) :
    (SscanfVarchar (str "varchar(" ++ ds ++ str ")")).1 =
      if decimalValue ds < 2 ^ 63 then some (decimalValue ds : Int) else none := by
  unfold SscanfVarchar
  rw [List.append_assoc, isPrefixOf?_append]
  simp only
  rw [scanInt_digits ds (str ")") hne hds (by decide)]
  by_cases hlt : decimalValue ds < 2 ^ 63
  · rw [if_pos hlt, if_pos hlt]
  · rw [if_neg hlt, if_neg hlt]

end fmt

theorem markedBy_nil (c : Column) : markedBy [] c = c := by
  simp [markedBy]

theorem markedBy_Name (lines : List GoString) (c : Column) : (markedBy lines c).Name = c.Name := by
  unfold markedBy
  split <;> rfl

theorem markedBy_clear (lines : List GoString) (c : Column) :
    { markedBy lines c with IsPrimaryKey := false } = { c with IsPrimaryKey := false } := by
  unfold markedBy
  split <;> rfl

theorem markedBy_IsPrimaryKey (lines : List GoString) (c : Column) (hc : c.IsPrimaryKey = false) :
    (markedBy lines c).IsPrimaryKey = true ↔
      ∃ l ∈ lines, str "PRIMARY KEY" <:+: l ∧ c.Name <:+: l := by
  unfold markedBy
  by_cases h : lines.any (fun l => strings.Contains l (str "PRIMARY KEY") &&
      strings.Contains l c.Name) = true
  · rw [if_pos h]
    simp only [true_iff]
    rw [List.any_eq_true] at h
    obtain ⟨l, hl, hb⟩ := h
    rw [Bool.and_eq_true] at hb
    exact ⟨l, hl, (strings.Contains_iff _ _).mp hb.1, (strings.Contains_iff _ _).mp hb.2⟩
  · rw [if_neg h, hc]
    simp only [Bool.false_eq_true, false_iff]
    rintro ⟨l, hl, h1, h2⟩
    apply h
    rw [List.any_eq_true]
    exact ⟨l, hl, by
      rw [Bool.and_eq_true]
      exact ⟨(strings.Contains_iff _ _).mpr h1, (strings.Contains_iff _ _).mpr h2⟩⟩

/-- Flagging by the line `l` and then by the later lines is flagging by all of them. -/
theorem markedBy_step (l : GoString) (rest : List GoString) (cols : List Column) :
    (if strings.Contains l (str "PRIMARY KEY") then markPrimaryKey l cols else cols).map
        (markedBy rest) = cols.map (markedBy (l :: rest)) := by
  by_cases hpk : strings.Contains l (str "PRIMARY KEY") = true
  · rw [if_pos hpk]
    unfold markPrimaryKey
    rw [List.map_map]
    apply List.map_congr_left
    intro c _
    simp only [Function.comp, markedBy, List.any_cons, hpk, Bool.true_and]
    by_cases hn : strings.Contains l c.Name = true
    · simp only [hn, if_true, Bool.true_or]
      split <;> rfl
    · simp only [hn, Bool.false_eq_true, if_false, Bool.false_or]
  · rw [if_neg hpk]
    apply List.map_congr_left
    intro c _
    simp only [markedBy, List.any_cons, hpk, Bool.false_and, Bool.false_or]

/-- The loop invariant: the columns collected so far are flagged by every later
line, and every accepted line adds its column. -/
theorem tableLoop_columns (lines : List GoString) :
    ∀ (tb t : Table), tableLoop lines tb = some t →
      t.TableName = tb.TableName ∧
      t.Columns = tb.Columns.map (markedBy lines) ++ expectedColumns lines := by
  induction lines with
  | nil =>
    intro tb t h
    simp only [tableLoop, Option.some.injEq] at h
    subst h
    refine ⟨rfl, ?_⟩
    have hid : markedBy [] = id := funext markedBy_nil
    simp [expectedColumns, hid]
  | cons l rest ih =>
    intro tb t h
    simp only [tableLoop] at h
    cases hs : tableStep tb l with
    | none => simp [hs] at h
    | some tb1 =>
      simp only [hs] at h
      obtain ⟨hn, hcols⟩ := ih tb1 t h
      unfold tableStep at hs
      cases hm : MakeColumn l with
      | none => simp [hm] at hs
      | some p =>
        obtain ⟨temp, ok⟩ := p
        simp only [hm] at hs
        have htb1 : tb1.TableName = tb.TableName ∧
            tb1.Columns = (if strings.Contains l (str "PRIMARY KEY") then
              markPrimaryKey l (if ok then tb.Columns ++ [temp] else tb.Columns)
              else (if ok then tb.Columns ++ [temp] else tb.Columns)) := by
          by_cases hpk : strings.Contains l (str "PRIMARY KEY") = true
          · simp only [hpk, if_true, Option.some.injEq] at hs
            subst hs
            cases ok <;> simp [hpk]
          · simp only [hpk, Bool.false_eq_true, if_false, Option.some.injEq] at hs
            subst hs
            cases ok <;> simp [hpk]
        refine ⟨hn.trans htb1.1, ?_⟩
        rw [hcols, htb1.2, markedBy_step]
        cases ok with
        | false =>
          have : acceptedColumn l = none := by simp [acceptedColumn, hm]
          simp [expectedColumns, this]
        | true =>
          have : acceptedColumn l = some temp := by simp [acceptedColumn, hm]
          simp [expectedColumns, this]

theorem expectedColumns_clear (lines : List GoString) :
    (expectedColumns lines).map (fun c => { c with IsPrimaryKey := false }) =
      (acceptedColumns lines).map (fun c => { c with IsPrimaryKey := false }) := by
  induction lines with
  | nil => rfl
  | cons l rest ih =>
    unfold expectedColumns acceptedColumns
    cases h : acceptedColumn l with
    | none =>
      simp only [List.filterMap_cons, h]
      exact ih
    | some c =>
      simp only [List.filterMap_cons, h, List.map_cons]
      rw [markedBy_clear]
      exact congrArg _ ih

theorem expectedColumns_get (lines : List GoString) :
    ∀ (k : Nat) (col : Column), (expectedColumns lines)[k]? = some col →
      ∃ before l after c, lines = before ++ l :: after ∧
        (acceptedColumns before).length = k ∧ MakeColumn l = some (c, true) ∧
        col = markedBy (l :: after) c := by
  induction lines with
  | nil =>
    intro k col h
    simp [expectedColumns] at h
  | cons l rest ih =>
    intro k col h
    unfold expectedColumns at h
    cases ha : acceptedColumn l with
    | none =>
      simp only [ha] at h
      obtain ⟨before, l1, after, c, h1, h2, h3, h4⟩ := ih k col h
      refine ⟨l :: before, l1, after, c, by simp [h1], ?_, h3, h4⟩
      simp [acceptedColumns, ha] at h2 ⊢
      exact h2
    | some c0 =>
      simp only [ha] at h
      cases k with
      | zero =>
        simp only [List.getElem?_cons_zero, Option.some.injEq] at h
        have hm : MakeColumn l = some (c0, true) := by
          unfold acceptedColumn at ha
          split at ha
          · rename_i c hc
            simp only [Option.some.injEq] at ha
            rw [hc, ha]
          · simp at ha
        exact ⟨[], l, rest, c0, rfl, rfl, hm, h.symm⟩
      | succ k =>
        simp only [List.getElem?_cons_succ] at h
        obtain ⟨before, l1, after, c, h1, h2, h3, h4⟩ := ih k col h
        refine ⟨l :: before, l1, after, c, by simp [h1], ?_, h3, h4⟩
        simp [acceptedColumns, ha] at h2 ⊢
        exact h2

theorem MakeColumn_IsPrimaryKey {line : GoString} {c : Column}
    (h : MakeColumn line = some (c, true)) : c.IsPrimaryKey = false := by
  obtain ⟨v0, v1, rest, name, _, _, _, hc⟩ := MakeColumn_accept h
  rw [hc]
  simp only [setType_IsPrimaryKey]
  rfl

namespace strings

/-- The second segment of a split lies between the first occurrence of the
separator and the next one, or the end of the string. -/
theorem Split_get_one {s sep x : GoString} (hsep : sep ≠ [])
    (h : (Split s sep)[1]? = some x) :
    ∃ pre post, s = pre ++ sep ++ x ++ post ∧ ¬ sep <:+: pre ∧ ¬ sep <:+: x ∧
      (post = [] ∨ sep <+: post) := by
  cases hI : Index s sep with
  | none =>
    rw [Split_of_absent s sep ((Index_eq_none_iff s sep).mp hI)] at h
    simp at h
  | some i =>
    obtain ⟨hs, _, hpre⟩ := Index_eq_some_decomp hI
    rw [Split_of_Index hsep hI] at h
    simp only [List.getElem?_cons_succ] at h
    cases hJ : Index (s.drop (i + sep.length)) sep with
    | none =>
      have hn := (Index_eq_none_iff _ sep).mp hJ
      rw [Split_of_absent _ sep hn] at h
      simp only [List.getElem?_cons_zero, Option.some.injEq] at h
      refine ⟨s.take i, [], ?_, hpre hsep, h ▸ hn, Or.inl rfl⟩
      rw [← h, List.append_nil]
      exact hs
    | some j =>
      obtain ⟨hs2, _, hpre2⟩ := Index_eq_some_decomp hJ
      rw [Split_of_Index hsep hJ] at h
      simp only [List.getElem?_cons_zero, Option.some.injEq] at h
      refine ⟨s.take i, sep ++ (s.drop (i + sep.length)).drop (j + sep.length), ?_,
        hpre hsep, h ▸ hpre2 hsep, Or.inr (List.prefix_append _ _)⟩
      rw [← h]
      conv_lhs => rw [hs, hs2]
      simp only [List.append_assoc]

end strings

theorem tableLoop_returns (lines : List GoString) :
    ∀ (tb t : Table), tableLoop lines tb = some t →
      ∀ l ∈ lines, ∃ c ok, MakeColumn l = some (c, ok) := by
  induction lines with
  | nil =>
    intro tb t _ l hl
    simp at hl
  | cons l0 rest ih =>
    intro tb t h l hl
    simp only [tableLoop] at h
    cases hs : tableStep tb l0 with
    | none => simp [hs] at h
    | some tb1 =>
      simp only [hs] at h
      rcases List.mem_cons.mp hl with h0 | h0
      · subst h0
        unfold tableStep at hs
        cases hm : MakeColumn l with
        | none => simp [hm] at hs
        | some p => exact ⟨p.1, p.2, rfl⟩
      · exact ih tb1 t h l h0

namespace strings

theorem trimLeftFuel_blank (s : GoString)
    (h : ∀ b ∈ s, b = 0x20 ∨ b = 0x09 ∨ b = 0x0B ∨ b = 0x0C ∨ b = 0x0D) :
    ∀ n, s.length ≤ n → trimLeftFuel n s = [] := by
  induction s with
  | nil =>
    intro n _
    cases n <;> rfl
  | cons b t ih =>
    intro n hn
    cases n with
    | zero => simp at hn
    | succ n =>
      have hw : unicode.spaceWidth (b :: t) = 1 := by
        rcases h b (List.mem_cons_self b t) with hb | hb | hb | hb | hb <;> subst hb <;> rfl
      rw [trimLeftFuel, if_neg (by rw [hw]; decide), hw]
      exact ih (fun x hx => h x (List.mem_cons_of_mem b hx)) n (by simpa using hn)

theorem TrimSpace_blank (s : GoString)
    (h : ∀ b ∈ s, b = 0x20 ∨ b = 0x09 ∨ b = 0x0B ∨ b = 0x0C ∨ b = 0x0D) :
    TrimSpace s = [] := by
  unfold TrimSpace
  rw [trimLeftFuel_blank s h s.length (Nat.le_refl _)]
  rfl

end strings

/-- What a successful run of `MakeTable` is made of. -/
theorem MakeTable_some {b : GoString} {t : Table} {e : error}
    (h : MakeTable b = some (t, e)) :
    ∃ pre seg post first lines,
      b = pre ++ str "CREATE TABLE " ++ seg ++ post ∧
      ¬ str "CREATE TABLE " <:+: pre ∧ ¬ str "CREATE TABLE " <:+: seg ∧
      (post = [] ∨ str "CREATE TABLE " <+: post) ∧
      (strings.Split seg (str "`"))[1]? = some t.TableName ∧
      strings.Split seg (str "\n") = first :: lines ∧
      (∀ l ∈ lines, ∃ c ok, MakeColumn l = some (c, ok)) ∧
      t.Columns = expectedColumns lines ∧ e = none := by
  unfold MakeTable at h
  cases hs : (strings.Split b (str "CREATE TABLE "))[1]? with
  | none => simp [hs] at h
  | some seg =>
    simp only [hs] at h
    obtain ⟨pre, post, hb, hpre, hseg, hpost⟩ := strings.Split_get_one (by decide) hs
    cases hname : (strings.Split seg (str "`"))[1]? with
    | none => simp [hname] at h
    | some name =>
      simp only [hname] at h
      cases hl : strings.Split seg (str "\n") with
      | nil => simp [hl] at h
      | cons first lines =>
        simp only [hl] at h
        cases hloop : tableLoop lines { TableName := name, Columns := [] } with
        | none => simp [hloop] at h
        | some tb =>
          simp only [hloop, Option.some.injEq, Prod.mk.injEq] at h
          obtain ⟨h1, h2⟩ := h
          subst h1
          obtain ⟨hn, hc⟩ := tableLoop_columns lines _ _ hloop
          refine ⟨pre, seg, post, first, lines, hb, hpre, hseg, hpost, ?_, hl,
            tableLoop_returns lines _ _ hloop, ?_, h2.symm⟩
          · rw [hn]; exact hname
          · simpa using hc

/-- No proper non-empty end of the marker is also a beginning of it: two
occurrences of the marker never overlap. -/
theorem marker_no_overlap :
    ∀ k, k < 13 → 0 < k →
      (str "CREATE TABLE ").take k ≠ (str "CREATE TABLE ").drop (13 - k) := by
  decide

/-- The marker that follows a text without marker is the first occurrence. -/
theorem Index_marker_append (pre rest : GoString) (h : ¬ str "CREATE TABLE " <:+: pre) :
    strings.Index (pre ++ str "CREATE TABLE " ++ rest) (str "CREATE TABLE ") =
      some pre.length := by
  rw [strings.Index_eq_some_iff]
  refine ⟨by simp, ?_, ?_⟩
  · rw [List.append_assoc, List.drop_left]
    exact List.prefix_append _ _
  · intro j hj hp
    have hlen : (str "CREATE TABLE ").length = 13 := by decide
    have hd : (pre ++ str "CREATE TABLE " ++ rest).drop j =
        pre.drop j ++ (str "CREATE TABLE " ++ rest) := by
      rw [List.append_assoc, List.drop_append_of_le_length (Nat.le_of_lt hj)]
    rw [hd] at hp
    have hplen : (pre.drop j).length = pre.length - j := by simp
    by_cases hbig : 13 ≤ (pre.drop j).length
    · apply h
      have h1 : str "CREATE TABLE " <+: pre.drop j :=
        List.prefix_of_prefix_length_le hp (List.prefix_append _ _) (by rw [hlen]; exact hbig)
      exact h1.isInfix.trans (List.drop_suffix j pre).isInfix
    · have hk1 : 0 < 13 - (pre.drop j).length := by omega
      have hk2 : 13 - (pre.drop j).length < 13 := by omega
      apply marker_no_overlap (13 - (pre.drop j).length) hk2 hk1
      have hsub : 13 - (13 - (pre.drop j).length) = (pre.drop j).length := by omega
      rw [hsub]
      obtain ⟨u, hu⟩ := hp
      have e1 := congrArg (List.take 13) hu
      rw [List.take_left' hlen] at e1
      have e2 : (pre.drop j ++ (str "CREATE TABLE " ++ rest)).take 13 =
          pre.drop j ++ (str "CREATE TABLE ").take (13 - (pre.drop j).length) := by
        rw [List.take_append_eq_append_take, List.take_of_length_le (by omega),
          List.take_append_of_le_length (by rw [hlen]; omega)]
      rw [e2] at e1
      have e3 := congrArg (List.drop (pre.drop j).length) e1
      rw [List.drop_left] at e3
      exact e3.symm

/-- Splitting at the first marker: the first segment is the text before it. -/
theorem Split_marker_append (pre rest : GoString) (h : ¬ str "CREATE TABLE " <:+: pre) :
    strings.Split (pre ++ str "CREATE TABLE " ++ rest) (str "CREATE TABLE ") =
      pre :: strings.Split rest (str "CREATE TABLE ") := by
  rw [strings.Split_of_Index (by decide) (Index_marker_append pre rest h)]
  have h1 : (pre ++ str "CREATE TABLE " ++ rest).take pre.length = pre := by
    rw [List.append_assoc, List.take_left]
  have h2 : (pre ++ str "CREATE TABLE " ++ rest).drop (pre.length + (str "CREATE TABLE ").length)
      = rest := by
    rw [← List.length_append, List.drop_left]
  rw [h1, h2]

/-! ## The properties stated by the specification -/

/-- C1. `MakeTable` applied to the five-line `users` statement succeeds and
returns the table `users` with exactly the two columns `id` (type `int`, not
nullable, length 0, primary key, no comment) and `name` (type `string`,
nullable, length 32, not a primary key, comment `Full name`), in this order. -/
theorem C1_MakeTable_users :
    MakeTable (str "CREATE TABLE `users` (\n  `id` int NOT NULL,\n  `name` varchar(32) DEFAULT NULL COMMENT 'Full name',\n  PRIMARY KEY (`id`)\n)") =
      some ({ TableName := str "users",
              Columns := [
                { Name := str "id", Type_ := str "int", Nullable := false, Length := 0,
                  IsPrimaryKey := true, Comment := str "" },
                { Name := str "name", Type_ := str "string", Nullable := true, Length := 32,
                  IsPrimaryKey := false, Comment := str "Full name" }] }, none) := by
  decide

/-- C2. On every input that does not contain the marker `CREATE TABLE ` (with
the trailing space) `MakeTable` fails: the second segment of the split does
not exist, the index is out of range and no `Table` is returned. -/
theorem C2_MakeTable_fails_without_marker (b : GoString)
    (h : ¬ str "CREATE TABLE " <:+: b) : MakeTable b = none := by
  unfold MakeTable
  rw [strings.Split_of_absent b _ h]
  rfl

theorem C2_MakeTable_fails_without_marker_witness :
    (¬ str "CREATE TABLE " <:+: str "create table `t` (\n  `id` int\n)") ∧
      MakeTable (str "create table `t` (\n  `id` int\n)") = none :=
  ⟨(strings.Contains_eq_false_iff _ _).mp (by decide),
   C2_MakeTable_fails_without_marker _ ((strings.Contains_eq_false_iff _ _).mp (by decide))⟩

/-- C3. For every line, `MakeColumn` returns `ok = false` exactly when the
first token of the line (the line trimmed of surrounding white space and split
on single spaces) contains no backtick.  In particular blank lines, the
closing `)` line and the lines whose first token is `PRIMARY`, `KEY` or
`UNIQUE` are rejected. -/
theorem C3_MakeColumn_rejects_iff_no_backtick :
    (∀ line : GoString, ∃ tok rest,
        strings.Split (strings.TrimSpace line) (str " ") = tok :: rest ∧
        ((∃ c, MakeColumn line = some (c, false)) ↔ (0x60 : Byte) ∉ tok)) ∧
      (∀ line : GoString,
        (∀ b ∈ line, b = 0x20 ∨ b = 0x09 ∨ b = 0x0B ∨ b = 0x0C ∨ b = 0x0D) →
          MakeColumn line = some (Column.zero, false)) ∧
      (∀ (line tok : GoString) (rest : List GoString),
        strings.Split (strings.TrimSpace line) (str " ") = tok :: rest →
        (tok = str ")" ∨ tok = str "PRIMARY" ∨ tok = str "KEY" ∨ tok = str "UNIQUE") →
          MakeColumn line = some (Column.zero, false)) ∧
      MakeColumn (str "") = some (Column.zero, false) ∧
      MakeColumn (str "  \t ") = some (Column.zero, false) ∧
      MakeColumn (str ")") = some (Column.zero, false) ∧
      MakeColumn (str ") ENGINE=InnoDB DEFAULT CHARSET=utf8;") = some (Column.zero, false) ∧
      MakeColumn (str "  PRIMARY KEY (`id`)") = some (Column.zero, false) ∧
      MakeColumn (str "  KEY `idx_name` (`name`),") = some (Column.zero, false) ∧
      MakeColumn (str "  UNIQUE KEY `uk_name` (`name`)") = some (Column.zero, false) := by
  refine ⟨?_, ?_, ?_, by decide, by decide, by decide, by decide, by decide, by decide,
    by decide⟩
  · intro line
    obtain ⟨tok, rest, hv⟩ := strings.Split_cons_exists (strings.TrimSpace line) (str " ")
    refine ⟨tok, rest, hv, ?_⟩
    rw [← strings.Contains_singleton, ← str_backtick]
    constructor
    · rintro ⟨c, hc⟩ hbt
      cases rest with
      | nil =>
        unfold MakeColumn at hc
        simp only [hv, List.getElem?_cons_zero, hbt, Bool.not_true, Bool.false_eq_true,
          if_false] at hc
        cases hname : (strings.Split tok (str "`"))[1]? with
        | none => simp [hname] at hc
        | some name => simp [hname] at hc
      | cons v1 rest =>
        obtain ⟨name, _, hm⟩ := MakeColumn_of_tokens hv hbt
        rw [hm] at hc
        simp at hc
    · intro hbt
      exact ⟨Column.zero, MakeColumn_of_no_backtick hv (by simpa using hbt)⟩
  · intro line hblank
    have hv : strings.Split (strings.TrimSpace line) (str " ") = [[]] := by
      rw [strings.TrimSpace_blank line hblank]
      decide
    exact MakeColumn_of_no_backtick hv (by decide)
  · intro line tok rest hv htok
    apply MakeColumn_of_no_backtick hv
    rcases htok with h | h | h | h <;> subst h <;> decide

theorem acceptedColumns_clear (lines : List GoString) :
    (acceptedColumns lines).map (fun c => { c with IsPrimaryKey := false }) =
      acceptedColumns lines := by
  induction lines with
  | nil => rfl
  | cons l rest ih =>
    unfold acceptedColumns at ih ⊢
    cases h : acceptedColumn l with
    | none =>
      simp only [List.filterMap_cons, h]
      exact ih
    | some c =>
      simp only [List.filterMap_cons, h, List.map_cons]
      have hm : MakeColumn l = some (c, true) := by
        unfold acceptedColumn at h
        split at h
        · rename_i c1 hc
          simp only [Option.some.injEq] at h
          rw [hc, h]
        · simp at h
      have hpk := MakeColumn_IsPrimaryKey hm
      have hc : { c with IsPrimaryKey := false } = c := by
        obtain ⟨n, ty, nl, len, pk, cm⟩ := c
        simp only at hpk
        subst hpk
        rfl
      rw [hc, ih]

/-- C4 (amended). For every input on which `MakeTable` succeeds, the returned
columns, with the field `IsPrimaryKey` disregarded (cleared), are exactly the
columns that `MakeColumn` returns with `ok = true` for the lines after the
first line of `seg`, one column per accepted line, in the order of the lines;
`seg` is the text between the first occurrence of the marker and the next
occurrence of the marker, or the end of the input when the marker does not
occur again.  The text from a second marker on is not read.  On every one of
the lines of `seg` `MakeColumn` returns, with `ok` true or false. -/
theorem C4_columns_are_the_accepted_lines (b : GoString) (t : Table) (e : error)
    (h : MakeTable b = some (t, e)) :
    ∃ pre seg post first lines,
      b = pre ++ str "CREATE TABLE " ++ seg ++ post ∧
      ¬ str "CREATE TABLE " <:+: pre ∧ ¬ str "CREATE TABLE " <:+: seg ∧
      (post = [] ∨ str "CREATE TABLE " <+: post) ∧
      strings.Split seg (str "\n") = first :: lines ∧
      (∀ l ∈ lines, ∃ c ok, MakeColumn l = some (c, ok)) ∧
      t.Columns.map (fun c => { c with IsPrimaryKey := false }) = acceptedColumns lines := by
  obtain ⟨pre, seg, post, first, lines, hb, hpre, hseg, hpost, _, hl, htot, hc, _⟩ :=
    MakeTable_some h
  refine ⟨pre, seg, post, first, lines, hb, hpre, hseg, hpost, hl, htot, ?_⟩
  rw [hc, expectedColumns_clear, acceptedColumns_clear]

theorem C4_columns_are_the_accepted_lines_witness :
    ∃ pre seg post first lines,
      str "-- users\nCREATE TABLE `users` (\n  `id` int NOT NULL,\n\n  `name` varchar(32),\n  PRIMARY KEY (`id`)\n)" =
        pre ++ str "CREATE TABLE " ++ seg ++ post ∧
      ¬ str "CREATE TABLE " <:+: pre ∧ ¬ str "CREATE TABLE " <:+: seg ∧
      (post = [] ∨ str "CREATE TABLE " <+: post) ∧
      strings.Split seg (str "\n") = first :: lines ∧
      (∀ l ∈ lines, ∃ c ok, MakeColumn l = some (c, ok)) ∧
      [ ({ Name := str "id", Type_ := str "int", Nullable := false, Length := 0,
           IsPrimaryKey := false, Comment := [] } : Column),
        { Name := str "name", Type_ := str "string", Nullable := true, Length := 32,
          IsPrimaryKey := false, Comment := [] } ] = acceptedColumns lines :=
  C4_columns_are_the_accepted_lines
    (str "-- users\nCREATE TABLE `users` (\n  `id` int NOT NULL,\n\n  `name` varchar(32),\n  PRIMARY KEY (`id`)\n)")
    { TableName := str "users",
      Columns := [
        { Name := str "id", Type_ := str "int", Nullable := false, Length := 0,
          IsPrimaryKey := true, Comment := [] },
        { Name := str "name", Type_ := str "string", Nullable := true, Length := 32,
          IsPrimaryKey := false, Comment := [] }] }
    none (by decide)


/-- C4 (counterexample). In
``CREATE TABLE `t` (`` / ``  `a` int COMMENT 'see CREATE TABLE doc',`` /
``  `b` int`` / `)` the lines after the first line of the text following the
marker hold the two accepted lines `a` and `b`, but `MakeTable` returns one
column: the line of `a` is cut at the marker inside its comment and the line of
`b` is dropped. -/
theorem C4_counterexample_line_dropped :
    str "CREATE TABLE `t` (\n  `a` int COMMENT 'see CREATE TABLE doc',\n  `b` int\n)" =
        str "CREATE TABLE " ++ str "`t` (\n  `a` int COMMENT 'see CREATE TABLE doc',\n  `b` int\n)" ∧
      MakeTable (str "CREATE TABLE `t` (\n  `a` int COMMENT 'see CREATE TABLE doc',\n  `b` int\n)") =
        some ({ TableName := str "t",
                Columns := [{ Name := str "a", Type_ := str "int", Nullable := true, Length := 0,
                              IsPrimaryKey := false, Comment := str "see " }] }, none) ∧
      acceptedColumns
          ((strings.Split (str "`t` (\n  `a` int COMMENT 'see CREATE TABLE doc',\n  `b` int\n)")
            (str "\n")).tail) =
        [{ Name := str "a", Type_ := str "int", Nullable := true, Length := 0,
           IsPrimaryKey := false, Comment := str "see CREATE TABLE doc" },
         { Name := str "b", Type_ := str "int", Nullable := true, Length := 0,
           IsPrimaryKey := false, Comment := [] }] ∧
      ([{ Name := str "a", Type_ := str "int", Nullable := true, Length := 0,
          IsPrimaryKey := false, Comment := str "see " }] : List Column).map
          (fun c => { c with IsPrimaryKey := false }) ≠
        [{ Name := str "a", Type_ := str "int", Nullable := true, Length := 0,
           IsPrimaryKey := false, Comment := str "see CREATE TABLE doc" },
         { Name := str "b", Type_ := str "int", Nullable := true, Length := 0,
           IsPrimaryKey := false, Comment := [] }] := by
  decide

/-- The closed form of an accepted column, field by field. -/
theorem MakeColumn_fields {line v0 v1 : GoString} {rest : List GoString}
    (hv : strings.Split (strings.TrimSpace line) (str " ") = v0 :: v1 :: rest)
    (hbt : (0x60 : Byte) ∈ v0) :
    ∃ c, MakeColumn line = some (c, true) ∧
      c.Nullable = !strings.Contains line (str "NOT NULL") ∧
      c.Type_ =
        (if strings.Contains v1 (str "double") then str "double"
          else if strings.Contains v1 (str "decimal") then str "decimal"
          else if strings.Contains v1 (str "date") then
            (if !strings.Contains line (str "NOT NULL") then str "DateTime?" else str "DateTime")
          else if strings.Contains v1 (str "varchar") then str "string"
          else if strings.Contains v1 (str "int") then str "int"
          else []) ∧
      c.Length =
        (if strings.Contains v1 (str "varchar") ∧ strings.Contains v1 (str "(") then
            ((fmt.SscanfVarchar v1).1).getD 0
          else 0) := by
  have hbt2 : strings.Contains v0 (str "`") = true := by
    rw [str_backtick, strings.Contains_singleton]; exact hbt
  obtain ⟨name, _, hm⟩ := MakeColumn_of_tokens hv hbt2
  refine ⟨_, hm, ?_, ?_, ?_⟩
  · simp only [setType_Nullable]
  · simp only [setType_eq]; rfl
  · simp only [setType_eq]; rfl

/-- C5 (amended). For a column line with a back-quoted first token and a second
token `v1` (exactly the lines `MakeColumn` accepts), when `v1` contains exactly
one of the keywords `int`, `varchar`, `date`, `decimal`, `double`, or none:
the type is `int` for `int`; `string` for `varchar`, with `Length = N` when
`v1` is exactly `varchar(N)` for a decimal number `N` below `2^63` (for a
larger `N` the scan reports a range error and `Length` stays `0`) and
`Length = 0` when `v1` has no `(`; `DateTime?` for `date` when the line has no
`NOT NULL` and `DateTime` when it has; `decimal`; `double`; and the empty
string when `v1` contains none of the keywords, the line being accepted all
the same. -/
theorem C5_type_mapping (line v0 v1 : GoString) (rest : List GoString)
    (hv : strings.Split (strings.TrimSpace line) (str " ") = v0 :: v1 :: rest)
    (hbt : (0x60 : Byte) ∈ v0) :
    ∃ c, MakeColumn line = some (c, true) ∧
      (str "int" <:+: v1 → ¬ str "varchar" <:+: v1 → ¬ str "date" <:+: v1 →
        ¬ str "decimal" <:+: v1 → ¬ str "double" <:+: v1 → c.Type_ = str "int") ∧
      (¬ str "int" <:+: v1 → str "varchar" <:+: v1 → ¬ str "date" <:+: v1 →
        ¬ str "decimal" <:+: v1 → ¬ str "double" <:+: v1 →
          c.Type_ = str "string" ∧
          (∀ ds : GoString, ds ≠ [] → (∀ d ∈ ds, fmt.isDigit d = true) →
            v1 = str "varchar(" ++ ds ++ str ")" →
              (fmt.decimalValue ds < 2 ^ 63 → c.Length = (fmt.decimalValue ds : Int)) ∧
              (2 ^ 63 ≤ fmt.decimalValue ds → c.Length = 0)) ∧
          ((0x28 : Byte) ∉ v1 → c.Length = 0)) ∧
      (¬ str "int" <:+: v1 → ¬ str "varchar" <:+: v1 → str "date" <:+: v1 →
        ¬ str "decimal" <:+: v1 → ¬ str "double" <:+: v1 →
          (¬ str "NOT NULL" <:+: line → c.Type_ = str "DateTime?") ∧
          (str "NOT NULL" <:+: line → c.Type_ = str "DateTime")) ∧
      (¬ str "int" <:+: v1 → ¬ str "varchar" <:+: v1 → ¬ str "date" <:+: v1 →
        str "decimal" <:+: v1 → ¬ str "double" <:+: v1 → c.Type_ = str "decimal") ∧
      (¬ str "int" <:+: v1 → ¬ str "varchar" <:+: v1 → ¬ str "date" <:+: v1 →
        ¬ str "decimal" <:+: v1 → str "double" <:+: v1 → c.Type_ = str "double") ∧
      (¬ str "int" <:+: v1 → ¬ str "varchar" <:+: v1 → ¬ str "date" <:+: v1 →
        ¬ str "decimal" <:+: v1 → ¬ str "double" <:+: v1 → c.Type_ = []) := by
  obtain ⟨c, hc, _, hT, hL⟩ := MakeColumn_fields hv hbt
  refine ⟨c, hc, ?_, ?_, ?_, ?_, ?_, ?_⟩
  · intro h1 h2 h3 h4 h5
    rw [hT]
    simp [(strings.Contains_iff _ _).mpr h1, (strings.Contains_eq_false_iff _ _).mpr h2,
      (strings.Contains_eq_false_iff _ _).mpr h3, (strings.Contains_eq_false_iff _ _).mpr h4,
      (strings.Contains_eq_false_iff _ _).mpr h5]
  · intro h1 h2 h3 h4 h5
    refine ⟨?_, ?_, ?_⟩
    · rw [hT]
      simp [(strings.Contains_iff _ _).mpr h2, (strings.Contains_eq_false_iff _ _).mpr h1,
        (strings.Contains_eq_false_iff _ _).mpr h3, (strings.Contains_eq_false_iff _ _).mpr h4,
        (strings.Contains_eq_false_iff _ _).mpr h5]
    · intro ds hne hds hv1
      have hp : strings.Contains v1 (str "(") = true := by
        rw [str_paren, strings.Contains_singleton, hv1]
        have : (0x28 : Byte) ∈ str "varchar(" := by decide
        simp [this]
      have hS := fmt.SscanfVarchar_exact ds hne hds
      rw [← hv1] at hS
      rw [hL, if_pos ⟨(strings.Contains_iff _ _).mpr h2, hp⟩, hS]
      constructor
      · intro hlt
        rw [if_pos hlt]; rfl
      · intro hge
        rw [if_neg (by omega)]; rfl
    · intro hp
      have hp2 : strings.Contains v1 (str "(") = false := by
        rw [str_paren, ← Bool.not_eq_true, strings.Contains_singleton]; exact hp
      rw [hL, if_neg (by simp [hp2])]
  · intro h1 h2 h3 h4 h5
    constructor
    · intro hn
      rw [hT]
      simp [(strings.Contains_iff _ _).mpr h3, (strings.Contains_eq_false_iff _ _).mpr h1,
        (strings.Contains_eq_false_iff _ _).mpr h2, (strings.Contains_eq_false_iff _ _).mpr h4,
        (strings.Contains_eq_false_iff _ _).mpr h5, (strings.Contains_eq_false_iff _ _).mpr hn]
    · intro hn
      rw [hT]
      simp [(strings.Contains_iff _ _).mpr h3, (strings.Contains_eq_false_iff _ _).mpr h1,
        (strings.Contains_eq_false_iff _ _).mpr h2, (strings.Contains_eq_false_iff _ _).mpr h4,
        (strings.Contains_eq_false_iff _ _).mpr h5, (strings.Contains_iff _ _).mpr hn]
  · intro h1 h2 h3 h4 h5
    rw [hT]
    simp [(strings.Contains_iff _ _).mpr h4, (strings.Contains_eq_false_iff _ _).mpr h1,
      (strings.Contains_eq_false_iff _ _).mpr h2, (strings.Contains_eq_false_iff _ _).mpr h3,
      (strings.Contains_eq_false_iff _ _).mpr h5]
  · intro h1 h2 h3 h4 h5
    rw [hT]
    simp [(strings.Contains_iff _ _).mpr h5]
  · intro h1 h2 h3 h4 h5
    rw [hT]
    simp [(strings.Contains_eq_false_iff _ _).mpr h1,
      (strings.Contains_eq_false_iff _ _).mpr h2, (strings.Contains_eq_false_iff _ _).mpr h3,
      (strings.Contains_eq_false_iff _ _).mpr h4, (strings.Contains_eq_false_iff _ _).mpr h5]

theorem C5_type_mapping_witness :
    ∃ c, MakeColumn (str "  `name` varchar(32) DEFAULT NULL COMMENT 'Full name',") = some (c, true) ∧
      c.Type_ = str "string" ∧ c.Length = 32 := by
  obtain ⟨c, hc, _, h2, _⟩ :=
    C5_type_mapping (str "  `name` varchar(32) DEFAULT NULL COMMENT 'Full name',")
      (str "`name`") (str "varchar(32)")
      [str "DEFAULT", str "NULL", str "COMMENT", str "'Full", str "name',"]
      (by decide) (by decide)
  have h := h2 ((strings.Contains_eq_false_iff _ _).mp (by decide))
    ((strings.Contains_iff _ _).mp (by decide))
    ((strings.Contains_eq_false_iff _ _).mp (by decide))
    ((strings.Contains_eq_false_iff _ _).mp (by decide))
    ((strings.Contains_eq_false_iff _ _).mp (by decide))
  refine ⟨c, hc, h.1, ?_⟩
  have h32 := (h.2.1 (str "32") (by decide) (by decide) (by decide)).1 (by decide)
  rw [h32]
  decide

/-- C5 (counterexample). The token `varchar(9223372036854775808)` is exactly
`varchar(N)` for the decimal number `N = 2^63` and contains no keyword but
`varchar`; the line is accepted with type `string`, yet `Length` is `0`, not
`N`: the number does not fit the 64-bit `int` and nothing is stored. -/
theorem C5_counterexample_length_out_of_range :
    strings.Split (strings.TrimSpace (str "`a` varchar(9223372036854775808)")) (str " ") =
        [str "`a`", str "varchar(" ++ str "9223372036854775808" ++ str ")"] ∧
      fmt.decimalValue (str "9223372036854775808") = 9223372036854775808 ∧
      MakeColumn (str "`a` varchar(9223372036854775808)") =
        some ({ Name := str "a", Type_ := str "string", Nullable := true, Length := 0,
                IsPrimaryKey := false, Comment := [] }, true) ∧
      (0 : Int) ≠ 9223372036854775808 := by
  decide

/-- C6 (amended). For every accepted column line the five keyword tests on the
second token `v1` are independent statements run in the order `int`,
`varchar`, `date`, `decimal`, `double`, each overwriting the type set before:
the last matching keyword decides.  The type is `double` if `v1` contains
`double`; otherwise `decimal` if it contains `decimal`; otherwise
`DateTime?`/`DateTime` if it contains `date`; otherwise `string` if it contains
`varchar`; otherwise `int` if it contains `int`; otherwise empty. -/
theorem C6_last_match_wins (line v0 v1 : GoString) (rest : List GoString)
    (hv : strings.Split (strings.TrimSpace line) (str " ") = v0 :: v1 :: rest)
    (hbt : (0x60 : Byte) ∈ v0) :
    ∃ c, MakeColumn line = some (c, true) ∧
      (str "double" <:+: v1 → c.Type_ = str "double") ∧
      (¬ str "double" <:+: v1 → str "decimal" <:+: v1 → c.Type_ = str "decimal") ∧
      (¬ str "double" <:+: v1 → ¬ str "decimal" <:+: v1 → str "date" <:+: v1 →
        (¬ str "NOT NULL" <:+: line → c.Type_ = str "DateTime?") ∧
        (str "NOT NULL" <:+: line → c.Type_ = str "DateTime")) ∧
      (¬ str "double" <:+: v1 → ¬ str "decimal" <:+: v1 → ¬ str "date" <:+: v1 →
        str "varchar" <:+: v1 → c.Type_ = str "string") ∧
      (¬ str "double" <:+: v1 → ¬ str "decimal" <:+: v1 → ¬ str "date" <:+: v1 →
        ¬ str "varchar" <:+: v1 → str "int" <:+: v1 → c.Type_ = str "int") ∧
      (¬ str "double" <:+: v1 → ¬ str "decimal" <:+: v1 → ¬ str "date" <:+: v1 →
        ¬ str "varchar" <:+: v1 → ¬ str "int" <:+: v1 → c.Type_ = []) := by
  obtain ⟨c, hc, _, hT, _⟩ := MakeColumn_fields hv hbt
  refine ⟨c, hc, ?_, ?_, ?_, ?_, ?_, ?_⟩
  · intro h5
    rw [hT]
    simp [(strings.Contains_iff _ _).mpr h5]
  · intro h5 h4
    rw [hT]
    simp [(strings.Contains_iff _ _).mpr h4, (strings.Contains_eq_false_iff _ _).mpr h5]
  · intro h5 h4 h3
    constructor
    · intro hn
      rw [hT]
      simp [(strings.Contains_iff _ _).mpr h3, (strings.Contains_eq_false_iff _ _).mpr h4,
        (strings.Contains_eq_false_iff _ _).mpr h5, (strings.Contains_eq_false_iff _ _).mpr hn]
    · intro hn
      rw [hT]
      simp [(strings.Contains_iff _ _).mpr h3, (strings.Contains_eq_false_iff _ _).mpr h4,
        (strings.Contains_eq_false_iff _ _).mpr h5, (strings.Contains_iff _ _).mpr hn]
  · intro h5 h4 h3 h2
    rw [hT]
    simp [(strings.Contains_iff _ _).mpr h2, (strings.Contains_eq_false_iff _ _).mpr h3,
      (strings.Contains_eq_false_iff _ _).mpr h4, (strings.Contains_eq_false_iff _ _).mpr h5]
  · intro h5 h4 h3 h2 h1
    rw [hT]
    simp [(strings.Contains_iff _ _).mpr h1, (strings.Contains_eq_false_iff _ _).mpr h2,
      (strings.Contains_eq_false_iff _ _).mpr h3, (strings.Contains_eq_false_iff _ _).mpr h4,
      (strings.Contains_eq_false_iff _ _).mpr h5]
  · intro h5 h4 h3 h2 h1
    rw [hT]
    simp [(strings.Contains_eq_false_iff _ _).mpr h1, (strings.Contains_eq_false_iff _ _).mpr h2,
      (strings.Contains_eq_false_iff _ _).mpr h3, (strings.Contains_eq_false_iff _ _).mpr h4,
      (strings.Contains_eq_false_iff _ _).mpr h5]

theorem C6_last_match_wins_witness :
    ∃ c, MakeColumn (str "  `kind` enum('int','double') NOT NULL,") = some (c, true) ∧
      c.Type_ = str "double" := by
  obtain ⟨c, hc, h1, _⟩ :=
    C6_last_match_wins (str "  `kind` enum('int','double') NOT NULL,")
      (str "`kind`") (str "enum('int','double')") [str "NOT", str "NULL,"]
      (by decide) (by decide)
  exact ⟨c, hc, h1 ((strings.Contains_iff _ _).mp (by decide))⟩

/-- C6 (counterexample). In the accepted line
``  `kind` enum('int','double') NOT NULL,`` the second token contains `int`,
yet the type is `double`, not `int`: the first match does not win. -/
theorem C6_counterexample_first_match_does_not_win :
    strings.Split (strings.TrimSpace (str "  `kind` enum('int','double') NOT NULL,")) (str " ") =
        [str "`kind`", str "enum('int','double')", str "NOT", str "NULL,"] ∧
      strings.Contains (str "enum('int','double')") (str "int") = true ∧
      MakeColumn (str "  `kind` enum('int','double') NOT NULL,") =
        some ({ Name := str "kind", Type_ := str "double", Nullable := false, Length := 0,
                IsPrimaryKey := false, Comment := str "int" }, true) ∧
      str "double" ≠ str "int" := by
  decide

/-- C7. For every line on which `MakeColumn` returns `ok = true`, the column
has `Nullable = false` exactly when the full line contains the literal
`NOT NULL` (anywhere in the line, a quoted comment included). -/
theorem C7_nullable_iff_no_NOT_NULL (line : GoString) (c : Column)
    (h : MakeColumn line = some (c, true)) :
    c.Nullable = false ↔ str "NOT NULL" <:+: line := by
  obtain ⟨v0, v1, rest, name, _, _, _, hc⟩ := MakeColumn_accept h
  have hN : c.Nullable = !strings.Contains line (str "NOT NULL") := by
    rw [hc]
    simp only [setType_Nullable]
  rw [hN, ← strings.Contains_iff]
  simp

theorem C7_nullable_iff_no_NOT_NULL_witness :
    MakeColumn (str "  `note` varchar(8) COMMENT 'NOT NULL',") =
        some ({ Name := str "note", Type_ := str "string", Nullable := false, Length := 8,
                IsPrimaryKey := false, Comment := str "NOT NULL" }, true) ∧
      ((false = false) ↔ str "NOT NULL" <:+: str "  `note` varchar(8) COMMENT 'NOT NULL',") :=
  ⟨by decide,
   C7_nullable_iff_no_NOT_NULL (str "  `note` varchar(8) COMMENT 'NOT NULL',")
     { Name := str "note", Type_ := str "string", Nullable := false, Length := 8,
       IsPrimaryKey := false, Comment := str "NOT NULL" } (by decide)⟩

/-- C8. For every line on which `MakeColumn` returns `ok = true`: if the line
contains no single quote the comment is empty; if it contains at least two,
the comment is exactly the text strictly between the first and the second
single quote of the line, and so contains no single quote itself. -/
theorem C8_comment_between_quotes (line : GoString) (c : Column)
    (h : MakeColumn line = some (c, true)) :
    ((0x27 : Byte) ∉ line → c.Comment = []) ∧
      (2 ≤ line.count (0x27 : Byte) →
        ∃ a z, line = a ++ 0x27 :: c.Comment ++ 0x27 :: z ∧
          (0x27 : Byte) ∉ a ∧ (0x27 : Byte) ∉ c.Comment) := by
  obtain ⟨v0, v1, rest, name, _, _, _, hc⟩ := MakeColumn_accept h
  have hC : c.Comment = if strings.Contains line (str "'") then
      ((strings.Split line (str "'"))[1]?).getD [] else [] := by
    rw [hc]
  constructor
  · intro hq
    have : strings.Contains line (str "'") = false := by
      rw [str_quote, ← Bool.not_eq_true, strings.Contains_singleton]; exact hq
    rw [hC, this]; rfl
  · intro h2
    have hmem : (0x27 : Byte) ∈ line := List.count_pos_iff.mp (by omega)
    obtain ⟨a, r, hl, ha⟩ := exists_first_occurrence hmem
    have hcr : 1 ≤ r.count (0x27 : Byte) := by
      rw [hl, List.count_append, List.count_cons_self, List.count_eq_zero_of_not_mem ha] at h2
      omega
    obtain ⟨m, z, hr, hm⟩ := exists_first_occurrence (List.count_pos_iff.mp hcr)
    have hcont : strings.Contains line (str "'") = true := by
      rw [str_quote, strings.Contains_singleton]; exact hmem
    have hsplit : strings.Split line (str "'") = a :: m :: strings.Split z (str "'") := by
      rw [str_quote, hl, strings.Split_singleton_append a r _ ha, hr,
        strings.Split_singleton_append m z _ hm]
    have hcm : c.Comment = m := by
      rw [hC, hcont, hsplit]; simp
    rw [hcm]
    exact ⟨a, z, by rw [hl, hr]; simp, ha, hm⟩

theorem C8_comment_between_quotes_witness :
    MakeColumn (str "  `name` varchar(32) DEFAULT NULL COMMENT 'it''s',") =
        some ({ Name := str "name", Type_ := str "string", Nullable := true, Length := 32,
                IsPrimaryKey := false, Comment := str "it" }, true) ∧
      ∃ a z, str "  `name` varchar(32) DEFAULT NULL COMMENT 'it''s'," =
          a ++ 0x27 :: str "it" ++ 0x27 :: z ∧ (0x27 : Byte) ∉ a ∧ (0x27 : Byte) ∉ str "it" :=
  ⟨by decide,
   (C8_comment_between_quotes (str "  `name` varchar(32) DEFAULT NULL COMMENT 'it''s',")
     { Name := str "name", Type_ := str "string", Nullable := true, Length := 32,
       IsPrimaryKey := false, Comment := str "it" } (by decide)).2 (by decide)⟩

/-- C9 (amended). For every input on which `MakeTable` succeeds and every
column of the result (the `k`-th column, defined by the accepted line `l` that
`k` accepted lines precede): `IsPrimaryKey` is true exactly when some line of
`seg` at or after `l` contains the literal `PRIMARY KEY` and contains the name
of the column; `seg` is the text between the first occurrence of the marker
and the next occurrence of the marker, or the end of the input when the marker
does not occur again, and a line from a second marker on flags nothing.  A
`PRIMARY KEY` line before `l` never flags the column, and without a line of
`seg` containing `PRIMARY KEY` no column is flagged. -/
theorem C9_primary_key_iff_later_line (b : GoString) (t : Table) (e : error)
    (h : MakeTable b = some (t, e)) :
    ∃ pre seg post first lines,
      b = pre ++ str "CREATE TABLE " ++ seg ++ post ∧
      ¬ str "CREATE TABLE " <:+: pre ∧ ¬ str "CREATE TABLE " <:+: seg ∧
      (post = [] ∨ str "CREATE TABLE " <+: post) ∧
      strings.Split seg (str "\n") = first :: lines ∧
      (∀ (k : Nat) (col : Column), t.Columns[k]? = some col →
        ∃ before l after,
          lines = before ++ l :: after ∧ (acceptedColumns before).length = k ∧
          (∃ c, MakeColumn l = some (c, true) ∧ c.Name = col.Name) ∧
          (col.IsPrimaryKey = true ↔
            ∃ l' ∈ l :: after, str "PRIMARY KEY" <:+: l' ∧ col.Name <:+: l')) ∧
      ((∀ l ∈ lines, ¬ str "PRIMARY KEY" <:+: l) →
        ∀ col ∈ t.Columns, col.IsPrimaryKey = false) := by
  obtain ⟨pre, seg, post, first, lines, hb, hpre, hseg, hpost, _, hl, _, hc, _⟩ :=
    MakeTable_some h
  have key : ∀ (k : Nat) (col : Column), t.Columns[k]? = some col →
      ∃ before l after,
        lines = before ++ l :: after ∧ (acceptedColumns before).length = k ∧
        (∃ c, MakeColumn l = some (c, true) ∧ c.Name = col.Name) ∧
        (col.IsPrimaryKey = true ↔
          ∃ l' ∈ l :: after, str "PRIMARY KEY" <:+: l' ∧ col.Name <:+: l') := by
    intro k col hk
    rw [hc] at hk
    obtain ⟨before, l, after, c, h1, h2, h3, h4⟩ := expectedColumns_get lines k col hk
    refine ⟨before, l, after, h1, h2, ⟨c, h3, ?_⟩, ?_⟩
    · rw [h4, markedBy_Name]
    · rw [h4, markedBy_IsPrimaryKey _ _ (MakeColumn_IsPrimaryKey h3), markedBy_Name]
  refine ⟨pre, seg, post, first, lines, hb, hpre, hseg, hpost, hl, key, ?_⟩
  intro hno col hcol
  obtain ⟨k, hk⟩ := List.getElem?_of_mem hcol
  obtain ⟨before, l, after, h1, _, _, hiff⟩ := key k col hk
  cases hpk : col.IsPrimaryKey with
  | false => rfl
  | true =>
    obtain ⟨l', hl', hpkl, _⟩ := hiff.mp hpk
    have : l' ∈ lines := by
      rw [h1]
      exact List.mem_append_right _ hl'
    exact absurd hpkl (hno l' this)

theorem C9_primary_key_iff_later_line_witness :
    ∃ pre seg post first lines,
      str "CREATE TABLE `t` (\n  PRIMARY KEY (`b`),\n  `a` int,\n  `b` int,\n  PRIMARY KEY (`a`)\n)" =
        pre ++ str "CREATE TABLE " ++ seg ++ post ∧
      ¬ str "CREATE TABLE " <:+: pre ∧ ¬ str "CREATE TABLE " <:+: seg ∧
      (post = [] ∨ str "CREATE TABLE " <+: post) ∧
      strings.Split seg (str "\n") = first :: lines ∧
      (∀ (k : Nat) (col : Column),
        [ ({ Name := str "a", Type_ := str "int", Nullable := true, Length := 0,
             IsPrimaryKey := true, Comment := [] } : Column),
          { Name := str "b", Type_ := str "int", Nullable := true, Length := 0,
            IsPrimaryKey := false, Comment := [] } ][k]? = some col →
        ∃ before l after,
          lines = before ++ l :: after ∧ (acceptedColumns before).length = k ∧
          (∃ c, MakeColumn l = some (c, true) ∧ c.Name = col.Name) ∧
          (col.IsPrimaryKey = true ↔
            ∃ l' ∈ l :: after, str "PRIMARY KEY" <:+: l' ∧ col.Name <:+: l')) ∧
      ((∀ l ∈ lines, ¬ str "PRIMARY KEY" <:+: l) →
        ∀ col ∈
          [ ({ Name := str "a", Type_ := str "int", Nullable := true, Length := 0,
               IsPrimaryKey := true, Comment := [] } : Column),
            { Name := str "b", Type_ := str "int", Nullable := true, Length := 0,
              IsPrimaryKey := false, Comment := [] } ], col.IsPrimaryKey = false) :=
  C9_primary_key_iff_later_line
    (str "CREATE TABLE `t` (\n  PRIMARY KEY (`b`),\n  `a` int,\n  `b` int,\n  PRIMARY KEY (`a`)\n)")
    { TableName := str "t",
      Columns := [
        { Name := str "a", Type_ := str "int", Nullable := true, Length := 0,
          IsPrimaryKey := true, Comment := [] },
        { Name := str "b", Type_ := str "int", Nullable := true, Length := 0,
          IsPrimaryKey := false, Comment := [] }] }
    none (by decide)

/-- C9 (counterexample). In
``CREATE TABLE `t` (`` / ``  `a` int COMMENT 'see CREATE TABLE doc',`` /
``  PRIMARY KEY (`a`)`` / `)` the line after the definition line of `a`
contains `PRIMARY KEY` and the name `a`, but `MakeTable` returns `a` with
`IsPrimaryKey = false`: the key line comes after the marker inside the comment
and is not read. -/
theorem C9_counterexample_key_line_not_read :
    str "CREATE TABLE `t` (\n  `a` int COMMENT 'see CREATE TABLE doc',\n  PRIMARY KEY (`a`)\n)" =
        str "CREATE TABLE " ++
          str "`t` (\n  `a` int COMMENT 'see CREATE TABLE doc',\n  PRIMARY KEY (`a`)\n)" ∧
      strings.Split
          (str "`t` (\n  `a` int COMMENT 'see CREATE TABLE doc',\n  PRIMARY KEY (`a`)\n)")
          (str "\n") =
        [str "`t` (", str "  `a` int COMMENT 'see CREATE TABLE doc',",
         str "  PRIMARY KEY (`a`)", str ")"] ∧
      MakeColumn (str "  `a` int COMMENT 'see CREATE TABLE doc',") =
        some ({ Name := str "a", Type_ := str "int", Nullable := true, Length := 0,
                IsPrimaryKey := false, Comment := str "see CREATE TABLE doc" }, true) ∧
      str "PRIMARY KEY" <:+: str "  PRIMARY KEY (`a`)" ∧
      str "a" <:+: str "  PRIMARY KEY (`a`)" ∧
      MakeTable
          (str "CREATE TABLE `t` (\n  `a` int COMMENT 'see CREATE TABLE doc',\n  PRIMARY KEY (`a`)\n)") =
        some ({ TableName := str "t",
                Columns := [{ Name := str "a", Type_ := str "int", Nullable := true, Length := 0,
                              IsPrimaryKey := false, Comment := str "see " }] }, none) := by
  refine ⟨by decide, by decide, by decide,
    (strings.Contains_iff _ _).mp (by decide), (strings.Contains_iff _ _).mp (by decide),
    by decide⟩

/-- C10 (amended). For every input on which `MakeTable` succeeds, `TableName`
is the text that follows the first backtick of `seg` and runs up to the next
backtick of `seg` or, when `seg` has no second backtick, to the end of `seg`;
`seg` is the text between the first occurrence of the marker `CREATE TABLE `
and the next occurrence of the marker (or the end of the input). -/
theorem C10_table_name (b : GoString) (t : Table) (e : error)
    (h : MakeTable b = some (t, e)) :
    ∃ pre seg post,
      b = pre ++ str "CREATE TABLE " ++ seg ++ post ∧
      ¬ str "CREATE TABLE " <:+: pre ∧ ¬ str "CREATE TABLE " <:+: seg ∧
      (post = [] ∨ str "CREATE TABLE " <+: post) ∧
      ∃ a z, seg = a ++ 0x60 :: t.TableName ++ z ∧
        (0x60 : Byte) ∉ a ∧ (0x60 : Byte) ∉ t.TableName ∧ (z = [] ∨ ∃ z', z = 0x60 :: z') := by
  obtain ⟨pre, seg, post, first, lines, hb, hpre, hseg, hpost, hname, _, _, _, _⟩ :=
    MakeTable_some h
  refine ⟨pre, seg, post, hb, hpre, hseg, hpost, ?_⟩
  rw [str_backtick] at hname
  obtain ⟨a, z, hs, ha, hn, hz⟩ := strings.Split_get_one (by simp) hname
  refine ⟨a, z, by simpa using hs, ?_, ?_, ?_⟩
  · intro hmem
    exact ha ((strings.Contains_iff _ _).mp ((strings.Contains_singleton _ _).mpr hmem))
  · intro hmem
    exact hn ((strings.Contains_iff _ _).mp ((strings.Contains_singleton _ _).mpr hmem))
  · rcases hz with hz | ⟨u, hu⟩
    · exact Or.inl hz
    · exact Or.inr ⟨u, by simpa using hu.symm⟩

theorem C10_table_name_witness :
    ∃ pre seg post,
      str "DROP TABLE x;\nCREATE TABLE `users` (\n  `id` int\n)" =
        pre ++ str "CREATE TABLE " ++ seg ++ post ∧
      ¬ str "CREATE TABLE " <:+: pre ∧ ¬ str "CREATE TABLE " <:+: seg ∧
      (post = [] ∨ str "CREATE TABLE " <+: post) ∧
      ∃ a z, seg = a ++ 0x60 :: str "users" ++ z ∧
        (0x60 : Byte) ∉ a ∧ (0x60 : Byte) ∉ str "users" ∧ (z = [] ∨ ∃ z', z = 0x60 :: z') :=
  C10_table_name (str "DROP TABLE x;\nCREATE TABLE `users` (\n  `id` int\n)")
    { TableName := str "users",
      Columns := [{ Name := str "id", Type_ := str "int", Nullable := true, Length := 0,
                    IsPrimaryKey := false, Comment := [] }] }
    none (by decide)

/-- C10 (counterexample). `MakeTable` succeeds on ``CREATE TABLE `users`` with
`TableName = users`, although the input holds a single backtick: there is no
second backtick for the name to stand in front of, the name runs to the end of
the text.  And on ``CREATE TABLE `a CREATE TABLE b` (``, where the text
strictly between the first and the second backtick after the first marker is
`a CREATE TABLE b`, the result is the name `a ` followed by no column: the
name stops where the marker occurs again. -/
theorem C10_counterexample_table_name :
    (MakeTable (str "CREATE TABLE `users") =
        some ({ TableName := str "users", Columns := [] }, none) ∧
      ¬ ∃ pre a z, str "CREATE TABLE `users" =
          pre ++ str "CREATE TABLE " ++ a ++ 0x60 :: str "users" ++ 0x60 :: z) ∧
    (MakeTable (str "CREATE TABLE `a CREATE TABLE b` (") =
        some ({ TableName := str "a ", Columns := [] }, none) ∧
      str "CREATE TABLE `a CREATE TABLE b` (" =
        [] ++ str "CREATE TABLE " ++ [] ++ 0x60 :: str "a CREATE TABLE b" ++ 0x60 :: str " (" ∧
      (0x60 : Byte) ∉ str "a CREATE TABLE b" ∧
      str "a " ≠ str "a CREATE TABLE b") := by
  refine ⟨⟨by decide, ?_⟩, by decide, by decide, by decide, by decide⟩
  rintro ⟨pre, a, z, h⟩
  have hc := congrArg (List.count (0x60 : Byte)) h
  have h1 : (str "CREATE TABLE `users").count (0x60 : Byte) = 1 := by decide
  rw [h1] at hc
  simp only [List.count_append, List.count_cons_self] at hc
  omega

/-- `MakeTable` reads its input only through the second segment of the split
on the marker. -/
theorem MakeTable_congr {b1 b2 : GoString}
    (h : (strings.Split b1 (str "CREATE TABLE "))[1]? =
      (strings.Split b2 (str "CREATE TABLE "))[1]?) : MakeTable b1 = MakeTable b2 := by
  unfold MakeTable
  rw [h]

/-- The first segment of a split of a text that ends at the next marker. -/
theorem Split_marker_head (seg post : GoString) (hseg : ¬ str "CREATE TABLE " <:+: seg)
    (hpost : post = [] ∨ str "CREATE TABLE " <+: post) :
    (strings.Split (seg ++ post) (str "CREATE TABLE "))[0]? = some seg := by
  rcases hpost with hp | ⟨u, hu⟩
  · subst hp
    rw [List.append_nil, strings.Split_of_absent seg _ hseg]
    rfl
  · rw [← hu, ← List.append_assoc, Split_marker_append seg u hseg]
    simp

/-- The second segment of the split of an input on the marker. -/
theorem Split_marker_get_one (pre seg post : GoString)
    (hpre : ¬ str "CREATE TABLE " <:+: pre) (hseg : ¬ str "CREATE TABLE " <:+: seg)
    (hpost : post = [] ∨ str "CREATE TABLE " <+: post) :
    (strings.Split (pre ++ str "CREATE TABLE " ++ seg ++ post) (str "CREATE TABLE "))[1]? =
      some seg := by
  rw [List.append_assoc (pre ++ str "CREATE TABLE ") seg post,
    Split_marker_append pre (seg ++ post) hpre]
  simp only [List.getElem?_cons_succ]
  exact Split_marker_head seg post hseg hpost

/-- C11 (amended). For every input `pre ++ marker ++ rest` in which `pre` does
not contain the marker `CREATE TABLE `, `MakeTable` discards `pre` and the
marker: the result depends only on `rest`.  Of `rest` it reads only the part
`seg` in front of the next occurrence of the marker: the marker and everything
after it are discarded as well, so the result is that of `marker ++ seg`. -/
theorem C11_only_the_first_segment_counts (pre seg post : GoString)
    (hpre : ¬ str "CREATE TABLE " <:+: pre) (hseg : ¬ str "CREATE TABLE " <:+: seg)
    (hpost : post = [] ∨ str "CREATE TABLE " <+: post) :
    MakeTable (pre ++ str "CREATE TABLE " ++ seg ++ post) =
        MakeTable (str "CREATE TABLE " ++ seg) ∧
      ∀ rest : GoString,
        MakeTable (pre ++ str "CREATE TABLE " ++ rest) = MakeTable (str "CREATE TABLE " ++ rest) := by
  have hnil : ¬ str "CREATE TABLE " <:+: ([] : GoString) := by decide
  constructor
  · apply MakeTable_congr
    rw [Split_marker_get_one pre seg post hpre hseg hpost]
    have := Split_marker_get_one [] seg [] hnil hseg (Or.inl rfl)
    simp only [List.nil_append, List.append_nil] at this
    exact this.symm
  · intro rest
    apply MakeTable_congr
    rw [Split_marker_append pre rest hpre]
    have := Split_marker_append [] rest hnil
    rw [List.nil_append] at this
    rw [this]
    rfl

theorem C11_only_the_first_segment_counts_witness :
    MakeTable (str "-- dump\n" ++ str "CREATE TABLE " ++
        str "`t` (\n  `a` int COMMENT 'see " ++ str "CREATE TABLE doc',\n  `b` int\n)") =
        MakeTable (str "CREATE TABLE " ++ str "`t` (\n  `a` int COMMENT 'see ") ∧
      ∀ rest : GoString,
        MakeTable (str "-- dump\n" ++ str "CREATE TABLE " ++ rest) =
          MakeTable (str "CREATE TABLE " ++ rest) :=
  C11_only_the_first_segment_counts (str "-- dump\n") (str "`t` (\n  `a` int COMMENT 'see ")
    (str "CREATE TABLE doc',\n  `b` int\n)")
    ((strings.Contains_eq_false_iff _ _).mp (by decide))
    ((strings.Contains_eq_false_iff _ _).mp (by decide))
    (Or.inr (List.isPrefixOf_iff_prefix.mp (by decide)))

/-- C11 (counterexample). In
``CREATE TABLE `t` (`` / ``  `a` int COMMENT 'see CREATE TABLE doc',`` /
``  `b` int`` / `)` the text after the first marker holds the marker again,
inside the comment of `a`.  The whole of that text has the two column lines
`a` (comment `see CREATE TABLE doc`) and `b`, but `MakeTable` returns the
single column `a` with the comment `see `: the text from the second marker on
is not parsed. -/
theorem C11_counterexample_marker_in_comment :
    MakeTable (str "CREATE TABLE `t` (\n  `a` int COMMENT 'see CREATE TABLE doc',\n  `b` int\n)") =
        some ({ TableName := str "t",
                Columns := [{ Name := str "a", Type_ := str "int", Nullable := true, Length := 0,
                              IsPrimaryKey := false, Comment := str "see " }] }, none) ∧
      acceptedColumns
          ((strings.Split (str "`t` (\n  `a` int COMMENT 'see CREATE TABLE doc',\n  `b` int\n)")
            (str "\n")).tail) =
        [{ Name := str "a", Type_ := str "int", Nullable := true, Length := 0,
           IsPrimaryKey := false, Comment := str "see CREATE TABLE doc" },
         { Name := str "b", Type_ := str "int", Nullable := true, Length := 0,
           IsPrimaryKey := false, Comment := [] }] := by
  decide

namespace strings

theorem doubled_infix_append (c : Byte) (a rest : GoString) (h : c ∉ a) :
    [c, c] <:+: a ++ c :: rest ↔ rest.head? = some c ∨ [c, c] <:+: rest := by
  induction a with
  | nil =>
    rw [List.nil_append, List.infix_cons_iff]
    apply or_congr_left
    cases rest with
    | nil => simp
    | cons x t =>
      simp only [List.head?_cons, Option.some.injEq]
      constructor
      · rintro ⟨u, hu⟩
        simp at hu
        exact hu.1.symm
      · intro hx
        subst hx
        exact ⟨t, rfl⟩
  | cons x a ih =>
    have hx : c ≠ x := fun e => h (e ▸ List.mem_cons_self _ _)
    have ha : c ∉ a := fun e => h (List.mem_cons_of_mem _ e)
    rw [List.cons_append, List.infix_cons_iff, ih ha]
    constructor
    · rintro (⟨u, hu⟩ | h2)
      · simp at hu
        exact absurd hu.1 hx
      · exact h2
    · intro h2
      exact Or.inr h2

/-- A split on one byte has an empty segment exactly when the text is empty,
starts or ends with the byte, or holds the byte twice in a row. -/
theorem nil_mem_Split_singleton (c : Byte) :
    ∀ (n : Nat) (s : GoString), s.length ≤ n →
      ([] ∈ Split s [c] ↔
        s = [] ∨ s.head? = some c ∨ s.getLast? = some c ∨ [c, c] <:+: s) := by
  intro n
  induction n with
  | zero =>
    intro s hs
    have : s = [] := List.length_eq_zero.mp (Nat.le_zero.mp hs)
    subst this
    have h0 : Split ([] : GoString) [c] = [[]] := Split_singleton_of_not_mem [] c (by simp)
    rw [h0]
    simp
  | succ n ih =>
    intro s hs
    by_cases hc : c ∈ s
    · obtain ⟨a, rest, hs2, ha⟩ := exists_first_occurrence hc
      subst hs2
      have hlen : rest.length ≤ n := by
        simp at hs
        omega
      rw [Split_singleton_append a rest c ha, List.mem_cons, ih rest hlen,
        doubled_infix_append c a rest ha]
      have hhead : (a ++ c :: rest).head? = some c ↔ a = [] := by
        cases a with
        | nil => simp
        | cons x t =>
          have hx : c ≠ x := fun e => ha (e ▸ List.mem_cons_self _ _)
          simp
          exact fun e => hx e.symm
      have hlast : (a ++ c :: rest).getLast? = some c ↔ rest = [] ∨ rest.getLast? = some c := by
        rw [List.getLast?_append]
        cases rest with
        | nil => simp
        | cons y t => simp [List.getLast?_cons_cons]
      rw [hhead, hlast]
      have hne : a ++ c :: rest ≠ [] := by simp
      constructor
      · rintro (h1 | h1 | h1 | h1 | h1)
        · exact Or.inr (Or.inl h1.symm)
        · exact Or.inr (Or.inr (Or.inl (Or.inl h1)))
        · exact Or.inr (Or.inr (Or.inr (Or.inl h1)))
        · exact Or.inr (Or.inr (Or.inl (Or.inr h1)))
        · exact Or.inr (Or.inr (Or.inr (Or.inr h1)))
      · rintro (h1 | h1 | (h1 | h1) | h1 | h1)
        · exact absurd h1 hne
        · exact Or.inl h1.symm
        · exact Or.inr (Or.inl h1)
        · exact Or.inr (Or.inr (Or.inr (Or.inl h1)))
        · exact Or.inr (Or.inr (Or.inl h1))
        · exact Or.inr (Or.inr (Or.inr (Or.inr h1)))
    · rw [Split_singleton_of_not_mem s c hc]
      simp only [List.mem_singleton]
      constructor
      · intro h
        exact Or.inl h.symm
      · rintro (h1 | h1 | h1 | h1)
        · exact h1.symm
        · exact absurd (List.mem_of_mem_head? h1) hc
        · exact absurd (List.mem_of_getLast?_eq_some h1) hc
        · exact absurd (h1.subset (List.mem_cons_self c [c])) hc

end strings

theorem str_underscore : str "_" = [0x5F] := by decide

theorem formatLoop_eq_none_iff (segs : List GoString) :
    ∀ acc : GoString, formatLoop segs acc = none ↔ [] ∈ segs := by
  induction segs with
  | nil =>
    intro acc
    simp [formatLoop]
  | cons v rest ih =>
    intro acc
    cases v with
    | nil => simp [formatLoop]
    | cons b v =>
      rw [formatLoop, ih]
      simp

theorem FormatName_eq_none_iff (s : GoString) :
    FormatName s = none ↔ [] ∈ strings.Split s (str "_") :=
  formatLoop_eq_none_iff _ _

/-- C13. `FormatName` fails (a slice bound out of range) exactly when some
underscore-separated segment of its argument is empty, that is exactly when
the argument is empty, starts with an underscore, ends with an underscore or
holds two underscores in a row; on every other argument it returns a
string. -/
theorem C13_FormatName_fails_iff_empty_segment (s : GoString) :
    (FormatName s = none ↔ [] ∈ strings.Split s (str "_")) ∧
      (FormatName s = none ↔
        s = [] ∨ s.head? = some 0x5F ∨ s.getLast? = some 0x5F ∨ [0x5F, 0x5F] <:+: s) ∧
      (¬ (s = [] ∨ s.head? = some 0x5F ∨ s.getLast? = some 0x5F ∨ [0x5F, 0x5F] <:+: s) →
        ∃ r, FormatName s = some r) := by
  have h1 := FormatName_eq_none_iff s
  have h2 : FormatName s = none ↔
      s = [] ∨ s.head? = some 0x5F ∨ s.getLast? = some 0x5F ∨ [0x5F, 0x5F] <:+: s := by
    rw [h1, str_underscore]
    exact strings.nil_mem_Split_singleton 0x5F s.length s (Nat.le_refl _)
  refine ⟨h1, h2, ?_⟩
  intro hn
  cases hf : FormatName s with
  | none => exact absurd (h2.mp hf) hn
  | some r => exact ⟨r, rfl⟩

theorem formatLoop_eq (segs : List GoString) :
    ∀ acc : GoString, (∀ v ∈ segs, v ≠ []) →
      formatLoop segs acc = some (acc ++ (segs.map capitalize).flatten) := by
  induction segs with
  | nil =>
    intro acc _
    simp [formatLoop]
  | cons v rest ih =>
    intro acc h
    cases v with
    | nil => exact absurd rfl (h [] (List.mem_cons_self _ _))
    | cons b v =>
      rw [formatLoop, ih _ (fun x hx => h x (List.mem_cons_of_mem _ hx))]
      simp [capitalize]

/-- `FormatName` in closed form: the capitalized segments, concatenated. -/
theorem FormatName_eq (s : GoString) (h : [] ∉ strings.Split s (str "_")) :
    FormatName s = some (((strings.Split s (str "_")).map capitalize).flatten) := by
  unfold FormatName
  rw [formatLoop_eq _ [] (fun v hv e => h (e ▸ hv))]
  rfl

/-- An ASCII lower-case letter is mapped to its upper-case letter; every other
ASCII byte is kept. -/
theorem ToUpperByte_ascii (b : Byte) (h : b < 0x80) :
    strings.ToUpperByte b = [if 0x61 ≤ b ∧ b ≤ 0x7A then b - 0x20 else b] := by
  unfold strings.ToUpperByte
  by_cases hl : 0x61 ≤ b ∧ b ≤ 0x7A
  · rw [if_pos hl, if_pos hl]
  · rw [if_neg hl, if_neg hl, if_pos h]

/-- C12 (the code against the statement). On the examples of the statement
`FormatName` gives `UserId`, `Name` and `ABC`.  On the identifier `été`, whose
only segment is non-empty, the first character `é` is not upper-cased: `v[0:1]`
is the first byte `0xC3` of its two-byte encoding, `strings.ToUpper` turns this
lone byte into U+FFFD, and the result is U+FFFD, the stray byte `0xA9` and
`té`, not `Été`. -/
theorem C12_FormatName_first_byte_not_first_character :
    FormatName (str "user_id") = some (str "UserId") ∧
      FormatName (str "name") = some (str "Name") ∧
      FormatName (str "a_b_c") = some (str "ABC") ∧
      strings.Split (str "été") (str "_") = [str "été"] ∧
      FormatName (str "été") = some ([0xEF, 0xBF, 0xBD, 0xA9] ++ str "té") ∧
      FormatName (str "été") ≠ some (str "Été") := by
  decide

theorem intercalate_cons_eq (sep b : GoString) (bs : List GoString) :
    List.intercalate sep (b :: bs) = b ++ (bs.map (fun x => sep ++ x)).flatten := by
  induction bs generalizing b with
  | nil => simp [List.intercalate]
  | cons c cs ih =>
    have h := ih c
    simp only [List.intercalate, List.intersperse, List.flatten, List.map_cons] at h ⊢
    rw [h]
    simp

theorem genColumn_eq (c : Column) (p : GoString) (h : FormatName c.Name = some p) :
    genColumn c = some (columnBlock c p) := by
  unfold genColumn columnBlock
  rw [h]
  cases c.IsPrimaryKey <;> cases c.Nullable <;> by_cases ht : c.Type_ = str "string" <;>
    simp [ht, List.append_assoc]

theorem genLoop_eq (cols : List Column) :
    ∀ (i : Nat) (r : GoString), (∀ c ∈ cols, FormatName c.Name ≠ none) →
      genLoop cols i r =
        some (r ++
          if i = 0 then
            List.intercalate (str "\n")
              (cols.map (fun c => columnBlock c ((FormatName c.Name).getD [])))
          else
            ((cols.map (fun c => columnBlock c ((FormatName c.Name).getD []))).map
              (fun x => str "\n" ++ x)).flatten) := by
  induction cols with
  | nil =>
    intro i r _
    by_cases hi : i = 0 <;> simp [genLoop, hi, List.intercalate]
  | cons c rest ih =>
    intro i r h
    obtain ⟨p, hp⟩ := Option.ne_none_iff_exists'.mp (h c (List.mem_cons_self _ _))
    have hrest : ∀ x ∈ rest, FormatName x.Name ≠ none :=
      fun x hx => h x (List.mem_cons_of_mem _ hx)
    rw [genLoop, genColumn_eq c p hp]
    simp only
    rw [ih (i + 1) _ hrest, if_neg (Nat.succ_ne_zero i)]
    by_cases hi : i = 0
    · simp only [hi, ne_eq, not_true_eq_false, if_false, if_true, List.map_cons,
        intercalate_cons_eq, hp, Option.getD_some, List.append_assoc]
    · simp only [hi, ne_eq, not_false_eq_true, if_true, if_false, List.map_cons,
        List.flatten, hp, Option.getD_some, List.append_assoc]

/-- C14. For every table whose column names have only non-empty
underscore-separated segments and every entity name, `GenCode` returns exactly
the header (empty summary, `[Table("TableName")]`, `public class entityName :
IEntity`, opening brace), the blocks of the columns in column order joined by a
single newline, and the closing brace and newline; the block of a column is
its summary with the comment, `[Key]` iff it is a primary key, `[Required]` iff
it is not nullable, `[Column("Name")]`, `[StringLength(Length)]` iff the type
is `string`, and the property line with the type and `FormatName(Name)`.  With
no column the header is followed at once by the closing brace. -/
theorem C14_GenCode_output (t : Table) (entityName : GoString)
    (h : ∀ c ∈ t.Columns, [] ∉ strings.Split c.Name (str "_")) :
    (∀ c ∈ t.Columns, ∃ p, FormatName c.Name = some p) ∧
      GenCode t entityName =
        some (classHeader t.TableName entityName ++
            List.intercalate (str "\n")
              (t.Columns.map (fun c => columnBlock c ((FormatName c.Name).getD []))) ++
            str "\x7d\n", none) ∧
      (t.Columns = [] →
        GenCode t entityName = some (classHeader t.TableName entityName ++ str "\x7d\n", none)) := by
  have hf : ∀ c ∈ t.Columns, FormatName c.Name ≠ none :=
    fun c hc e => h c hc ((FormatName_eq_none_iff c.Name).mp e)
  have hg : GenCode t entityName =
      some (classHeader t.TableName entityName ++
          List.intercalate (str "\n")
            (t.Columns.map (fun c => columnBlock c ((FormatName c.Name).getD []))) ++
          str "\x7d\n", none) := by
    unfold GenCode
    simp only
    rw [genLoop_eq t.Columns 0 _ hf]
    simp only [if_true]
    have hh : str "/// <summary>\n/// " ++ str "" ++ str "\n/// </summary>\n" ++
        (str "[Table(\"" ++ t.TableName ++ str "\")]\n") ++
        (str "public class " ++ entityName ++ str " : IEntity\n") ++ str "\x7b\n" =
        classHeader t.TableName entityName := by
      unfold classHeader
      have e1 : str "/// <summary>\n/// " ++ str "" ++ str "\n/// </summary>\n" =
          str "/// <summary>\n/// \n/// </summary>\n" := by decide
      have e2 : str " : IEntity\n\x7b\n" = str " : IEntity\n" ++ str "\x7b\n" := by decide
      rw [e1, e2]
      simp only [List.append_assoc]
    rw [hh]
  refine ⟨fun c hc => Option.ne_none_iff_exists'.mp (hf c hc), hg, ?_⟩
  intro hnil
  rw [hg, hnil]
  simp [List.intercalate]

theorem C14_GenCode_output_witness :
    GenCode
        { TableName := str "users",
          Columns := [
            { Name := str "id", Type_ := str "int", Nullable := false, Length := 0,
              IsPrimaryKey := true, Comment := str "" },
            { Name := str "full_name", Type_ := str "string", Nullable := true, Length := 32,
              IsPrimaryKey := false, Comment := str "Full name" }] }
        (str "User") =
      some (str "/// <summary>\n/// \n/// </summary>\n[Table(\"users\")]\npublic class User : IEntity\n\x7b\n/// <summary>\n/// \n/// </summary>\n[Key]\n[Required]\n[Column(\"id\")]\npublic int Id \x7b get; set; \x7d\n\n/// <summary>\n/// Full name\n/// </summary>\n[Column(\"full_name\")]\n[StringLength(32)]\npublic string FullName \x7b get; set; \x7d\n\x7d\n",
        none) := by
  have h := (C14_GenCode_output
    { TableName := str "users",
      Columns := [
        { Name := str "id", Type_ := str "int", Nullable := false, Length := 0,
          IsPrimaryKey := true, Comment := str "" },
        { Name := str "full_name", Type_ := str "string", Nullable := true, Length := 32,
          IsPrimaryKey := false, Comment := str "Full name" }] }
    (str "User") (by decide)).2.1
  rw [h]
  decide

theorem genColumn_eq_none_iff (c : Column) : genColumn c = none ↔ FormatName c.Name = none := by
  unfold genColumn
  cases FormatName c.Name <;> simp

theorem genLoop_eq_none_iff (cols : List Column) :
    ∀ (i : Nat) (r : GoString),
      genLoop cols i r = none ↔ ∃ c ∈ cols, FormatName c.Name = none := by
  induction cols with
  | nil =>
    intro i r
    simp [genLoop]
  | cons c rest ih =>
    intro i r
    rw [genLoop]
    cases hg : genColumn c with
    | none =>
      simp only [true_iff]
      exact ⟨c, List.mem_cons_self _ _, (genColumn_eq_none_iff c).mp hg⟩
    | some text =>
      have hc : FormatName c.Name ≠ none := fun e => by
        rw [(genColumn_eq_none_iff c).mpr e] at hg
        exact Option.noConfusion hg
      simp only [ih, List.mem_cons]
      constructor
      · rintro ⟨x, hx, hn⟩
        exact ⟨x, Or.inr hx, hn⟩
      · rintro ⟨x, hx | hx, hn⟩
        · exact absurd (hx ▸ hn) hc
        · exact ⟨x, hx, hn⟩

/-- The shape of `GenCode`: the loop run on the header, then the closing brace. -/
theorem GenCode_shape (t : Table) (entityName : GoString) :
    ∃ r0 : GoString, GenCode t entityName =
      match genLoop t.Columns 0 r0 with
      | none => none
      | some result => some (result ++ str "\x7d\n", none) :=
  ⟨_, rfl⟩

theorem GenCode_eq_none_iff (t : Table) (entityName : GoString) :
    GenCode t entityName = none ↔ ∃ c ∈ t.Columns, FormatName c.Name = none := by
  obtain ⟨r0, h0⟩ := GenCode_shape t entityName
  rw [h0, ← genLoop_eq_none_iff t.Columns 0 r0]
  cases genLoop t.Columns 0 r0 <;> simp

theorem GenCode_err (t : Table) (entityName r : GoString) (e : error)
    (h : GenCode t entityName = some (r, e)) : e = none := by
  obtain ⟨r0, h0⟩ := GenCode_shape t entityName
  rw [h0] at h
  cases hg : genLoop t.Columns 0 r0 with
  | none => simp [hg] at h
  | some x =>
    simp only [hg, Option.some.injEq, Prod.mk.injEq] at h
    exact h.2.symm

/-- C15 (amended). `GenCode` fails (a slice bound out of range inside
`FormatName`) exactly when the name of some column has an empty
underscore-separated segment, that is when the name is empty or has a leading,
a trailing or a doubled underscore; for every other table and every entity
name it returns a text, with a nil error. -/
theorem C15_GenCode_fails_iff_empty_segment (t : Table) (entityName : GoString) :
    (GenCode t entityName = none ↔ ∃ c ∈ t.Columns, [] ∈ strings.Split c.Name (str "_")) ∧
      (GenCode t entityName = none ↔
        ∃ c ∈ t.Columns, c.Name = [] ∨ c.Name.head? = some 0x5F ∨
          c.Name.getLast? = some 0x5F ∨ [0x5F, 0x5F] <:+: c.Name) ∧
      ((∀ c ∈ t.Columns, [] ∉ strings.Split c.Name (str "_")) →
        ∃ text, GenCode t entityName = some (text, none)) := by
  have h1 : GenCode t entityName = none ↔
      ∃ c ∈ t.Columns, [] ∈ strings.Split c.Name (str "_") := by
    rw [GenCode_eq_none_iff]
    constructor
    · rintro ⟨c, hc, hn⟩
      exact ⟨c, hc, (FormatName_eq_none_iff c.Name).mp hn⟩
    · rintro ⟨c, hc, hn⟩
      exact ⟨c, hc, (FormatName_eq_none_iff c.Name).mpr hn⟩
  refine ⟨h1, ?_, ?_⟩
  · rw [h1]
    constructor
    · rintro ⟨c, hc, hn⟩
      refine ⟨c, hc, ?_⟩
      rw [str_underscore] at hn
      exact (strings.nil_mem_Split_singleton 0x5F c.Name.length c.Name (Nat.le_refl _)).mp hn
    · rintro ⟨c, hc, hn⟩
      refine ⟨c, hc, ?_⟩
      rw [str_underscore]
      exact (strings.nil_mem_Split_singleton 0x5F c.Name.length c.Name (Nat.le_refl _)).mpr hn
  · intro hall
    cases hg : GenCode t entityName with
    | none =>
      obtain ⟨c, hc, hn⟩ := h1.mp hg
      exact absurd hn (hall c hc)
    | some p =>
      obtain ⟨text, e⟩ := p
      have := GenCode_err t entityName text e hg
      subst this
      exact ⟨text, rfl⟩

/-- C15 (counterexample). `MakeTable` accepts the column line ``  `_id` int``
and returns the column named `_id`; on this table `GenCode` fails: the first
underscore-separated segment of `_id` is empty and `v[0:1]` is out of range.
The same holds for the name `user__id`. -/
theorem C15_counterexample_GenCode_fails :
    MakeTable (str "CREATE TABLE `t` (\n  `_id` int\n)") =
        some ({ TableName := str "t",
                Columns := [{ Name := str "_id", Type_ := str "int", Nullable := true,
                              Length := 0, IsPrimaryKey := false, Comment := [] }] }, none) ∧
      GenCode { TableName := str "t",
                Columns := [{ Name := str "_id", Type_ := str "int", Nullable := true,
                              Length := 0, IsPrimaryKey := false, Comment := [] }] }
          (str "T") = none ∧
      GenCode { TableName := str "t",
                Columns := [{ Name := str "user__id", Type_ := str "int", Nullable := true,
                              Length := 0, IsPrimaryKey := false, Comment := [] }] }
          (str "T") = none := by
  decide

/-- C16 (amended). On a line whose first token (after trimming and splitting
on single spaces) contains a backtick, `MakeColumn` returns exactly when the
line has a second token: it then returns `ok = true` with the column whose
name is the text after the first backtick of the first token, whatever the
rest of the line is.  When the first token is the only token the access
`values[1]` is out of range and `MakeColumn` fails. -/
theorem C16_MakeColumn_needs_two_tokens (line tok : GoString) (rest : List GoString)
    (hv : strings.Split (strings.TrimSpace line) (str " ") = tok :: rest)
    (hbt : (0x60 : Byte) ∈ tok) :
    (rest ≠ [] →
        ∃ c, MakeColumn line = some (c, true) ∧
          (strings.Split tok (str "`"))[1]? = some c.Name) ∧
      (rest = [] → MakeColumn line = none) := by
  have hbt2 : strings.Contains tok (str "`") = true := by
    rw [str_backtick, strings.Contains_singleton]; exact hbt
  constructor
  · intro hne
    obtain ⟨v1, rest1, hr⟩ := List.exists_cons_of_ne_nil hne
    subst hr
    obtain ⟨name, hname, hm⟩ := MakeColumn_of_tokens hv hbt2
    refine ⟨_, hm, ?_⟩
    rw [hname]
    simp only [setType_Name]
  · intro hnil
    subst hnil
    unfold MakeColumn
    simp only [hv, List.getElem?_cons_zero, hbt2, Bool.not_true, Bool.false_eq_true, if_false]
    cases (strings.Split tok (str "`"))[1]? <;> simp

theorem C16_MakeColumn_needs_two_tokens_witness :
    (∃ c, MakeColumn (str "  `a` x") = some (c, true) ∧
        (strings.Split (str "`a`") (str "`"))[1]? = some c.Name) ∧
      MakeColumn (str "`a`") = none :=
  ⟨(C16_MakeColumn_needs_two_tokens (str "  `a` x") (str "`a`") [str "x"]
      (by decide) (by decide)).1 (by decide),
   (C16_MakeColumn_needs_two_tokens (str "`a`") (str "`a`") [] (by decide) (by decide)).2 rfl⟩

/-- C16 (counterexample). The line that consists of the back-quoted name
``  `a`,`` only, and the line ``  `a`<TAB>int`` whose name and type are
separated by a tab, have a single space-separated token, which contains a
backtick: on both `MakeColumn` fails with an index out of range instead of
returning a column. -/
theorem C16_counterexample_single_token :
    strings.Split (strings.TrimSpace (str "  `a`,")) (str " ") = [str "`a`,"] ∧
      MakeColumn (str "  `a`,") = none ∧
      strings.Split (strings.TrimSpace (str "  `a`\tint")) (str " ") = [str "`a`\tint"] ∧
      MakeColumn (str "  `a`\tint") = none := by
  decide

theorem isPrefixOf?_of_mismatch (p : GoString) :
    ∀ l : GoString, ¬ p <+: l → p.isPrefixOf? l = none := by
  induction p with
  | nil =>
    intro l h
    exact absurd (List.nil_prefix) h
  | cons x p ih =>
    intro l h
    cases l with
    | nil => rfl
    | cons y l =>
      by_cases hxy : x = y
      · subst hxy
        have hp : ¬ p <+: l := fun e => h ((List.cons_prefix_cons).mpr ⟨rfl, e⟩)
        simp [List.isPrefixOf?, ih l hp]
      · simp [List.isPrefixOf?, hxy]

namespace fmt

theorem SkipSpace_of_no_space (n : Nat) (r : GoString) (h : unicode.spaceWidth r = 0) :
    SkipSpace n r = some r := by
  cases n with
  | zero => rfl
  | succ n =>
    unfold SkipSpace
    split
    · rfl
    · rename_i t
      have h1 : unicode.spaceWidth (0x0A :: t) = 1 := rfl
      rw [h1] at h
      exact absurd h (by decide)
    · rw [if_pos h]

/-- Without white space, sign or digit in front, `%d` scans nothing. -/
theorem scanInt_of_no_number (r : GoString) (hsp : unicode.spaceWidth r = 0)
    (hx : ∀ x, r.head? = some x → x ≠ 0x2B ∧ x ≠ 0x2D ∧ isDigit x = false) :
    scanInt r = none := by
  unfold scanInt
  rw [SkipSpace_of_no_space _ r hsp]
  cases r with
  | nil => rfl
  | cons x t =>
    obtain ⟨h1, h2, h3⟩ := hx x rfl
    simp only [List.head?_cons, Option.some.injEq, h1, h2, or_self, if_false, decide_False]
    have hem : (x :: t).takeWhile isDigit = [] := by
      rw [List.takeWhile_cons_of_neg (by rw [h3]; decide)]
    simp [hem]

theorem SscanfVarchar_of_other_start (v1 : GoString) (h : ¬ str "varchar(" <+: v1) :
    (SscanfVarchar v1).1 = none := by
  unfold SscanfVarchar
  rw [isPrefixOf?_of_mismatch _ v1 h]

theorem SscanfVarchar_of_no_number (r : GoString) (hsp : unicode.spaceWidth r = 0)
    (hx : ∀ x, r.head? = some x → x ≠ 0x2B ∧ x ≠ 0x2D ∧ isDigit x = false) :
    (SscanfVarchar (str "varchar(" ++ r)).1 = none := by
  unfold SscanfVarchar
  rw [isPrefixOf?_append]
  simp only
  rw [scanInt_of_no_number r hsp hx]

theorem SscanfVarchar_digits (ds r : GoString) (hne : ds ≠ [])
    (hds : ∀ d ∈ ds, isDigit d = true)
    (hr : ∀ x, r.head? = some x → isDigit x = false) :
    (SscanfVarchar (str "varchar(" ++ ds ++ r)).1 =
      if decimalValue ds < 2 ^ 63 then some (decimalValue ds : Int) else none := by
  unfold SscanfVarchar
  rw [List.append_assoc, isPrefixOf?_append]
  simp only
  rw [scanInt_digits ds r hne hds hr]
  by_cases hlt : decimalValue ds < 2 ^ 63
  · rw [if_pos hlt, if_pos hlt]
  · rw [if_neg hlt, if_neg hlt]

end fmt

/-- C17 (amended). A malformed varchar length is non-fatal, and `Length` is
what `Sscanf` stored before it stopped.  For every accepted column line whose
second token `v1` contains `varchar` and `(`: `MakeColumn` returns `ok = true`;
the type is `string` unless `v1` also contains `date`, `decimal` or `double`;
`Length` is `0` when `v1` does not start with `varchar(` (as in
`nvarchar(32)`) and when `varchar(` is followed by the end of the token or by a
byte that is no white space, sign or digit (as in `varchar(abc)` and
`varchar()`); and `Length` is `N` when `varchar(` is followed by the decimal
digits `ds` of a number `N` below `2^63`, whatever follows the digits, a
closing parenthesis or not (as in `varchar(12`, `varchar(12x)` and
`varchar(12_)`, where `Length` is `12`); `ds` is the whole run of digits, what
follows it does not start with a digit.  For `N` from `2^63` on nothing is
stored and `Length` is `0`. -/
theorem C17_malformed_length (line v0 v1 : GoString) (rest : List GoString)
    (hv : strings.Split (strings.TrimSpace line) (str " ") = v0 :: v1 :: rest)
    (hbt : (0x60 : Byte) ∈ v0)
    (hvar : str "varchar" <:+: v1) (hpar : (0x28 : Byte) ∈ v1) :
    ∃ c, MakeColumn line = some (c, true) ∧
      (¬ str "date" <:+: v1 → ¬ str "decimal" <:+: v1 → ¬ str "double" <:+: v1 →
        c.Type_ = str "string") ∧
      (¬ str "varchar(" <+: v1 → c.Length = 0) ∧
      (∀ r : GoString, v1 = str "varchar(" ++ r → unicode.spaceWidth r = 0 →
        (∀ x, r.head? = some x → x ≠ 0x2B ∧ x ≠ 0x2D ∧ fmt.isDigit x = false) →
          c.Length = 0) ∧
      (∀ ds r : GoString, v1 = str "varchar(" ++ ds ++ r → ds ≠ [] →
        (∀ d ∈ ds, fmt.isDigit d = true) →
        (∀ x, r.head? = some x → fmt.isDigit x = false) →
          (fmt.decimalValue ds < 2 ^ 63 → c.Length = (fmt.decimalValue ds : Int)) ∧
          (2 ^ 63 ≤ fmt.decimalValue ds → c.Length = 0)) := by
  obtain ⟨c, hc, _, hT, hL⟩ := MakeColumn_fields hv hbt
  have hvar2 : strings.Contains v1 (str "varchar") = true := (strings.Contains_iff _ _).mpr hvar
  have hpar2 : strings.Contains v1 (str "(") = true := by
    rw [str_paren, strings.Contains_singleton]; exact hpar
  rw [if_pos ⟨hvar2, hpar2⟩] at hL
  refine ⟨c, hc, ?_, ?_, ?_, ?_⟩
  · intro h3 h4 h5
    rw [hT]
    simp [hvar2, (strings.Contains_eq_false_iff _ _).mpr h3,
      (strings.Contains_eq_false_iff _ _).mpr h4, (strings.Contains_eq_false_iff _ _).mpr h5]
  · intro hnp
    rw [hL, fmt.SscanfVarchar_of_other_start v1 hnp]
    rfl
  · intro r hr hsp hx
    rw [hL, hr, fmt.SscanfVarchar_of_no_number r hsp hx]
    rfl
  · intro ds r hr hne hds hrr
    rw [hL, hr, fmt.SscanfVarchar_digits ds r hne hds hrr]
    constructor
    · intro hlt
      rw [if_pos hlt]
      rfl
    · intro hge
      rw [if_neg (by omega)]
      rfl

theorem C17_malformed_length_witness :
    ∃ c, MakeColumn (str "  `a` varchar(12x) NOT NULL,") = some (c, true) ∧
      c.Type_ = str "string" ∧ c.Length = 12 := by
  obtain ⟨c, hc, hT, _, _, hL⟩ :=
    C17_malformed_length (str "  `a` varchar(12x) NOT NULL,") (str "`a`") (str "varchar(12x)")
      [str "NOT", str "NULL,"] (by decide) (by decide)
      ((strings.Contains_iff _ _).mp (by decide)) (by decide)
  refine ⟨c, hc, ?_, ?_⟩
  · exact hT ((strings.Contains_eq_false_iff _ _).mp (by decide))
      ((strings.Contains_eq_false_iff _ _).mp (by decide))
      ((strings.Contains_eq_false_iff _ _).mp (by decide))
  · have h12 := (hL (str "12") (str "x)") (by decide) (by decide) (by decide) (by decide)).1
      (by decide)
    rw [h12]
    decide

/-- C17 (counterexample). The tokens `varchar(12`, `varchar(12x)` and
`varchar(12_)` contain `varchar` and `(` and are not of the shape
`varchar(N)`; the lines are accepted with type `string`, but `Length` is `12`,
not `0`: `Sscanf` stores the number before it misses the closing parenthesis.
On `varchar(abc)`, `varchar()` and `nvarchar(32)` the length is `0`. -/
theorem C17_counterexample_length_kept :
    MakeColumn (str "`a` varchar(12") =
        some ({ Name := str "a", Type_ := str "string", Nullable := true, Length := 12,
                IsPrimaryKey := false, Comment := [] }, true) ∧
      MakeColumn (str "`a` varchar(12x)") =
        some ({ Name := str "a", Type_ := str "string", Nullable := true, Length := 12,
                IsPrimaryKey := false, Comment := [] }, true) ∧
      MakeColumn (str "`a` varchar(12_)") =
        some ({ Name := str "a", Type_ := str "string", Nullable := true, Length := 12,
                IsPrimaryKey := false, Comment := [] }, true) ∧
      (12 : Int) ≠ 0 ∧
      MakeColumn (str "`a` varchar(abc)") =
        some ({ Name := str "a", Type_ := str "string", Nullable := true, Length := 0,
                IsPrimaryKey := false, Comment := [] }, true) ∧
      MakeColumn (str "`a` varchar()") =
        some ({ Name := str "a", Type_ := str "string", Nullable := true, Length := 0,
                IsPrimaryKey := false, Comment := [] }, true) ∧
      MakeColumn (str "`a` nvarchar(32)") =
        some ({ Name := str "a", Type_ := str "string", Nullable := true, Length := 0,
                IsPrimaryKey := false, Comment := [] }, true) := by
  decide

/-- C18. Primary-key detection is by substring, not by token: with the columns
`id` and `user_id`, in either order and both defined before the key line
``PRIMARY KEY (`user_id`)``, `MakeTable` returns both columns with
`IsPrimaryKey = true`, although the key line names `user_id` only (`id` occurs
in it as a part of `user_id`). -/
theorem C18_primary_key_by_substring :
    MakeTable (str "CREATE TABLE `t` (\n  `id` int NOT NULL,\n  `user_id` int NOT NULL,\n  PRIMARY KEY (`user_id`)\n)") =
        some ({ TableName := str "t",
                Columns := [
                  { Name := str "id", Type_ := str "int", Nullable := false, Length := 0,
                    IsPrimaryKey := true, Comment := [] },
                  { Name := str "user_id", Type_ := str "int", Nullable := false, Length := 0,
                    IsPrimaryKey := true, Comment := [] }] }, none) ∧
      MakeTable (str "CREATE TABLE `t` (\n  `user_id` int NOT NULL,\n  `id` int NOT NULL,\n  PRIMARY KEY (`user_id`)\n)") =
        some ({ TableName := str "t",
                Columns := [
                  { Name := str "user_id", Type_ := str "int", Nullable := false, Length := 0,
                    IsPrimaryKey := true, Comment := [] },
                  { Name := str "id", Type_ := str "int", Nullable := false, Length := 0,
                    IsPrimaryKey := true, Comment := [] }] }, none) ∧
      str "id" <:+: str "  PRIMARY KEY (`user_id`)" ∧
      ¬ str "`id`" <:+: str "  PRIMARY KEY (`user_id`)" := by
  refine ⟨by decide, by decide, (strings.Contains_iff _ _).mp (by decide),
    (strings.Contains_eq_false_iff _ _).mp (by decide)⟩

/-- A line whose only token contains a backtick makes `MakeColumn` fail. -/
theorem MakeColumn_of_single_token {line tok : GoString}
    (hv : strings.Split (strings.TrimSpace line) (str " ") = [tok])
    (hbt : (0x60 : Byte) ∈ tok) : MakeColumn line = none := by
  have hbt2 : strings.Contains tok (str "`") = true := by
    rw [str_backtick, strings.Contains_singleton]; exact hbt
  unfold MakeColumn
  simp only [hv, List.getElem?_cons_zero, hbt2, Bool.not_true, Bool.false_eq_true, if_false]
  cases (strings.Split tok (str "`"))[1]? <;> simp

theorem MakeColumn_eq_none_iff (line : GoString) :
    MakeColumn line = none ↔
      ∃ tok, strings.Split (strings.TrimSpace line) (str " ") = [tok] ∧ (0x60 : Byte) ∈ tok := by
  obtain ⟨tok, rest, hv⟩ := strings.Split_cons_exists (strings.TrimSpace line) (str " ")
  constructor
  · intro hn
    by_cases hbt : (0x60 : Byte) ∈ tok
    · cases rest with
      | nil => exact ⟨tok, hv, hbt⟩
      | cons v1 rest =>
        have hbt2 : strings.Contains tok (str "`") = true := by
          rw [str_backtick, strings.Contains_singleton]; exact hbt
        obtain ⟨name, _, hm⟩ := MakeColumn_of_tokens hv hbt2
        rw [hm] at hn
        exact Option.noConfusion hn
    · have hbt2 : strings.Contains tok (str "`") = false := by
        rw [str_backtick, ← Bool.not_eq_true, strings.Contains_singleton]; exact hbt
      rw [MakeColumn_of_no_backtick hv hbt2] at hn
      exact Option.noConfusion hn
  · rintro ⟨tok1, hv1, hbt⟩
    exact MakeColumn_of_single_token hv1 hbt

theorem tableLoop_of_returns (lines : List GoString) :
    (∀ l ∈ lines, MakeColumn l ≠ none) → ∀ tb : Table, ∃ t, tableLoop lines tb = some t := by
  induction lines with
  | nil =>
    intro _ tb
    exact ⟨tb, rfl⟩
  | cons l rest ih =>
    intro h tb
    have hl := h l (List.mem_cons_self _ _)
    have hstep : ∃ tb1, tableStep tb l = some tb1 := by
      unfold tableStep
      cases hm : MakeColumn l with
      | none => exact absurd hm hl
      | some p =>
        obtain ⟨temp, ok⟩ := p
        simp only
        split
        · exact ⟨_, rfl⟩
        · exact ⟨_, rfl⟩
    obtain ⟨tb1, h1⟩ := hstep
    obtain ⟨t, ht⟩ := ih (fun x hx => h x (List.mem_cons_of_mem _ hx)) tb1
    exact ⟨t, by rw [tableLoop, h1]; exact ht⟩

/-- C19. `MakeTable` returns a table exactly when (1) the text contains the
marker `CREATE TABLE `, (2) the segment `seg` that follows the first marker, up
to the next occurrence of the marker or the end of the text, contains a
backtick, and (3) every line after the first line of `seg` whose first
space-separated token (after trimming white space) contains a backtick has at
least two space-separated tokens. -/
theorem C19_MakeTable_succeeds_iff (b : GoString) :
    (∃ t e, MakeTable b = some (t, e)) ↔
      ∃ pre seg post,
        b = pre ++ str "CREATE TABLE " ++ seg ++ post ∧
        ¬ str "CREATE TABLE " <:+: pre ∧ ¬ str "CREATE TABLE " <:+: seg ∧
        (post = [] ∨ str "CREATE TABLE " <+: post) ∧
        (0x60 : Byte) ∈ seg ∧
        ∀ l ∈ (strings.Split seg (str "\n")).tail, ∀ (tok : GoString) (rest : List GoString),
          strings.Split (strings.TrimSpace l) (str " ") = tok :: rest →
            (0x60 : Byte) ∈ tok → rest ≠ [] := by
  constructor
  · rintro ⟨t, e, h⟩
    obtain ⟨pre, seg, post, first, lines, hb, hpre, hseg, hpost, hname, hl, htot, _, _⟩ :=
      MakeTable_some h
    refine ⟨pre, seg, post, hb, hpre, hseg, hpost, ?_, ?_⟩
    · have := (strings.Split_get_one_isSome seg (str "`") str_ne_nil_backtick).mp ⟨_, hname⟩
      rw [str_backtick] at this
      exact (strings.Contains_singleton seg 0x60).mp ((strings.Contains_iff _ _).mpr this)
    · intro l hlmem tok rest hv hbt hrest
      rw [hl] at hlmem
      obtain ⟨c, ok, hm⟩ := htot l hlmem
      subst hrest
      rw [MakeColumn_of_single_token hv hbt] at hm
      exact Option.noConfusion hm
  · rintro ⟨pre, seg, post, hb, hpre, hseg, hpost, hbt, hlines⟩
    have h1 := Split_marker_get_one pre seg post hpre hseg hpost
    rw [← hb] at h1
    have hbt2 : str "`" <:+: seg := by
      rw [str_backtick]
      exact (strings.Contains_iff _ _).mp ((strings.Contains_singleton seg 0x60).mpr hbt)
    obtain ⟨name, hname⟩ :=
      (strings.Split_get_one_isSome seg (str "`") str_ne_nil_backtick).mpr hbt2
    obtain ⟨first, lines, hl⟩ := strings.Split_cons_exists seg (str "\n")
    have hret : ∀ l ∈ lines, MakeColumn l ≠ none := by
      intro l hlmem hn
      obtain ⟨tok, hv, htok⟩ := (MakeColumn_eq_none_iff l).mp hn
      exact hlines l (by rw [hl]; exact hlmem) tok [] hv htok rfl
    obtain ⟨t, ht⟩ := tableLoop_of_returns lines hret { TableName := name, Columns := [] }
    refine ⟨t, none, ?_⟩
    unfold MakeTable
    simp only [h1, hname, hl, ht]

/-- C20. The error results carry no information: whenever `MakeTable` returns,
its `err` is nil, and whenever `GenCode` returns, its `err` is nil.  Either
operation returns with a nil error or does not return at all (it stops in an
index or slice bound out of range), so the `err` checks in `main` after
`MakeTable` and `GenCode` never take the error branch. -/
theorem C20_err_is_always_nil :
    (∀ b : GoString, MakeTable b = none ∨ ∃ t, MakeTable b = some (t, none)) ∧
      (∀ (t : Table) (entityName : GoString),
        GenCode t entityName = none ∨ ∃ text, GenCode t entityName = some (text, none)) := by
  constructor
  · intro b
    cases h : MakeTable b with
    | none => exact Or.inl rfl
    | some p =>
      obtain ⟨t, e⟩ := p
      obtain ⟨_, _, _, _, _, _, _, _, _, _, _, _, _, he⟩ := MakeTable_some h
      subst he
      exact Or.inr ⟨t, rfl⟩
  · intro t entityName
    cases h : GenCode t entityName with
    | none => exact Or.inl rfl
    | some p =>
      obtain ⟨text, e⟩ := p
      have he := GenCode_err t entityName text e h
      subst he
      exact Or.inr ⟨text, rfl⟩

end Sql2Entity
